import Mathlib

/-!
Shallow embedding of the tabular data pipeline in streamlit_app.py
(country/MBTI dashboard): name normalization, country/type column
detection, wide/long shape reconciliation, row normalization to 100,
and the capital/continent geo-join stage.

Modelling conventions:
  * a pandas cell is `Cell`: a string, a rational number (numeric values
    are embedded as exact rationals), or `na` (NaN / missing);
  * a DataFrame is `Table`: an ordered list of column names plus rows,
    each row an ordered list of cells;
  * Python exceptions that the pipeline can raise (ValueError for the
    schema/shape failures, KeyError for column selection, TypeError for
    invalid elementwise numeric ops) become `Except PipelineError`;
  * a pandas column has numeric dtype iff it is non-empty and every cell
    is a number or NaN (a column holding any string is object dtype).
-/

inductive Cell where
  | str : String → Cell
  | num : Rat → Cell
  | na : Cell
deriving DecidableEq

structure Table where
  cols : List String
  rows : List (List Cell)
deriving DecidableEq

inductive PipelineError where
  | schemaError
  | shapeError
  | keyError
  | typeError
deriving DecidableEq


/-- Kernel-evaluable rational operations (the library operations are
implemented behind an FFI boundary and do not reduce inside proofs);
each one is proved equal to the library operation below. -/
def ratAdd (a b : Rat) : Rat := Rat.divInt (a.num * b.den + b.num * a.den) (a.den * b.den)

def ratMul (a b : Rat) : Rat := Rat.divInt (a.num * b.num) (a.den * b.den)

def ratDiv (a b : Rat) : Rat := Rat.divInt (a.num * b.den) (a.den * b.num)

def ratNeg (a : Rat) : Rat := Rat.divInt (-a.num) a.den

def ratAbs (a : Rat) : Rat := if a.num < 0 then ratNeg a else a

def ratPowN (q : Rat) : Nat → Rat
  | 0 => 1
  | n + 1 => ratMul q (ratPowN q n)

def ratPowI (q : Rat) (e : Int) : Rat :=
  if 0 ≤ e then ratPowN q e.toNat else ratDiv 1 (ratPowN q e.natAbs)

/-- Error-propagating map over a list (the effect of applying a fallible
Python operation elementwise, stopping at the first raised exception). -/
def mapE (f : α → Except ε β) : List α → Except ε (List β)
  | [] => .ok []
  | a :: as =>
    match f a with
    | .error e => .error e
    | .ok b =>
      match mapE f as with
      | .error e => .error e
      | .ok bs => .ok (b :: bs)


/-- Python str.strip(): drop whitespace at both ends (implemented over
the character list so that it evaluates inside the kernel). -/
def pyStrip (s : String) : String :=
  ⟨((s.data.dropWhile Char.isWhitespace).reverse.dropWhile Char.isWhitespace).reverse⟩

/-- Python str.lower(): ASCII case mapping (the Korean headers this
pipeline meets are caseless). -/
def pyLower (s : String) : String :=
  ⟨s.data.map Char.toLower⟩

/-- Python str.upper(). -/
def pyUpper (s : String) : String :=
  ⟨s.data.map Char.toUpper⟩

/-- Python string comparison: lexicographic on code points. -/
def charListLe : List Char → List Char → Bool
  | [], _ => true
  | _ :: _, [] => false
  | a :: as, b :: bs => if a = b then charListLe as bs else decide (a.toNat < b.toNat)

def strLeP (a b : String) : Prop := charListLe a.data b.data = true

instance : DecidableRel strLeP := fun a b => inferInstanceAs (Decidable (_ = true))

def natToChars : Nat → Nat → List Char
  | 0, _ => []
  | fuel + 1, n =>
    if n = 0 then []
    else natToChars fuel (n / 10) ++ [Char.ofNat (48 + n % 10)]

/-- Decimal print of a natural number. -/
def natToStr (n : Nat) : String :=
  if n = 0 then "0" else ⟨natToChars n n⟩

/-- Decimal-style print of a rational: only ever inspected through
membership in the 16 four-letter type codes, which it never is. -/
def ratToStrPy (q : Rat) : String :=
  (if q.num < 0 then "-" else "") ++ natToStr q.num.natAbs ++
    (if q.den = 1 then ".0" else "/" ++ natToStr q.den)

-- ---------------------------------------------------------------------
-- Basic table operations
-- ---------------------------------------------------------------------

/-- Index of the column labelled `c` (first occurrence). -/
def Table.colIdx (t : Table) (c : String) : Option Nat :=
  t.cols.findIdx? (fun x => decide (x = c))

/-- The cells of column `c`, or `[]` when the label is absent. -/
def Table.getColD (t : Table) (c : String) : List Cell :=
  match t.colIdx c with
  | some i => t.rows.map (fun r => r.getD i .na)
  | none => []

/-- The cell of row `r` in column `c` (`na` when the label is absent). -/
def Table.cellAt (t : Table) (c : String) (r : List Cell) : Cell :=
  match t.colIdx c with
  | some i => r.getD i .na
  | none => .na

/-- `df[[c1, c2, ...]]`: column selection; raises KeyError when a label
is missing. -/
def Table.select (t : Table) (cs : List String) : Except PipelineError Table :=
  match mapE (fun c => (t.colIdx c).elim (Except.error .keyError) Except.ok) cs with
  | .error e => .error e
  | .ok idxs => .ok ⟨cs, t.rows.map (fun r => idxs.map (fun i => r.getD i .na))⟩

/-- `df.rename(columns=m)` where `m` assigns a new label to every column
of the frame. -/
def Table.renameAll (t : Table) (f : String → String) : Table :=
  ⟨t.cols.map f, t.rows⟩

/-- `df[c] = vals`: overwrite column `c` when present, else append it at
the end (pandas column assignment). -/
def Table.setCol (t : Table) (c : String) (vals : List Cell) : Table :=
  match t.colIdx c with
  | some i => ⟨t.cols, t.rows.zipWith (fun r v => r.set i v) vals⟩
  | none => ⟨t.cols ++ [c], t.rows.zipWith (fun r v => r ++ [v]) vals⟩

/-- `df[c] = scalar` for a fresh column `c` (`wide[t] = np.nan`). -/
def Table.appendConstCol (t : Table) (c : String) (v : Cell) : Table :=
  ⟨t.cols ++ [c], t.rows.map (fun r => r ++ [v])⟩

/-- `df[c] = f(df[c])` elementwise on an existing column (no-op when the
label is absent; every use site has the column present). -/
def Table.mapColByName (t : Table) (c : String) (f : Cell → Cell) : Table :=
  match t.colIdx c with
  | some i => ⟨t.cols, t.rows.map (fun r => r.set i (f (r.getD i .na)))⟩
  | none => t

/-- `df[mask]` row filtering. -/
def Table.filterRows (t : Table) (p : List Cell → Bool) : Table :=
  ⟨t.cols, t.rows.filter p⟩

/-- `df.columns = [str(c).strip() for c in df.columns]`. -/
def Table.stripCols (t : Table) : Table :=
  ⟨t.cols.map pyStrip, t.rows⟩

/-- Well-formed frame: distinct column labels, every row as long as the
header. -/
def Table.WF (t : Table) : Prop :=
  t.cols.Nodup ∧ ∀ r ∈ t.rows, r.length = t.cols.length

-- ---------------------------------------------------------------------
-- Numeric coercion (pd.to_numeric / astype(float))
-- ---------------------------------------------------------------------

def digitsVal (cs : List Char) : Option Nat :=
  cs.foldl (fun acc c => acc.bind (fun n => if c.isDigit then some (n * 10 + (c.toNat - 48)) else none)) (some 0)

/-- Parse an unsigned decimal mantissa: digits, with an optional point
and fractional digits (`"12"`, `"12."`, `".5"`, `"1.25"`). -/
def parseMantissa (cs : List Char) : Option Rat :=
  let ip := cs.takeWhile Char.isDigit
  let rest := cs.dropWhile Char.isDigit
  match rest with
  | [] => if ip.isEmpty then none else (digitsVal ip).map (fun n => (n : Rat))
  | c :: fp =>
    if c = '.' then
      if ip.isEmpty ∧ fp.isEmpty then none
      else
        match digitsVal ip, digitsVal fp with
        | some n, some m =>
          if fp.all Char.isDigit then
            some (ratAdd (n : Rat) (ratDiv (m : Rat) (ratPowN 10 fp.length)))
          else none
        | _, _ => none
    else none

/-- Split an optional exponent suffix (`e5`, `E-3`) from a mantissa. -/
def splitExp (cs : List Char) : List Char × Option Int :=
  let mant := cs.takeWhile (fun c => c ≠ 'e' ∧ c ≠ 'E')
  match cs.dropWhile (fun c => c ≠ 'e' ∧ c ≠ 'E') with
  | [] => (cs, some 0)
  | _ :: ex =>
    match ex with
    | '-' :: ds =>
      if ds.isEmpty then (mant, none)
      else (mant, (digitsVal ds).map (fun n => -(n : Int)))
    | '+' :: ds =>
      if ds.isEmpty then (mant, none)
      else (mant, (digitsVal ds).map (fun n => (n : Int)))
    | ds =>
      if ds.isEmpty then (mant, none)
      else (mant, (digitsVal ds).map (fun n => (n : Int)))

/-- The subset of Python float syntax that the pipeline can meet in a
CSV cell: optional sign, decimal mantissa, optional exponent, optional
surrounding whitespace (`float(s)` / `pd.to_numeric` both accept it;
exotic forms such as underscores, inf and nan are out of the model). -/
def pyParseNumber (s : String) : Option Rat :=
  let cs := (pyStrip s).data
  let (signNeg, body) :=
    match cs with
    | '-' :: rest => (true, rest)
    | '+' :: rest => (false, rest)
    | _ => (false, cs)
  let (mant, exp) := splitExp body
  match parseMantissa mant, exp with
  | some m, some e =>
    let v := if signNeg then ratNeg m else m
    some (ratMul v (ratPowI 10 e))
  | _, _ => none

/-- `pd.to_numeric(x, errors="coerce")` on one cell: unparseable values
become NaN, never an error. -/
def toNumericCell : Cell → Cell
  | .num q => .num q
  | .na => .na
  | .str s =>
    match pyParseNumber s with
    | some q => .num q
    | none => .na

/-- `.astype(float)` on one cell: unparseable strings raise. -/
def astypeFloatCell : Cell → Except PipelineError Cell
  | .num q => .ok (.num q)
  | .na => .ok .na
  | .str s =>
    match pyParseNumber s with
    | some q => .ok (.num q)
    | none => .error .typeError

/-- `str(x)` on one cell (`astype(str)`): numbers stringify to a decimal
form that is never a four-letter type code, NaN stringifies to "nan". -/
def cellToStrPy : Cell → String
  | .str s => s
  | .num q => ratToStrPy q
  | .na => "nan"

/-- A column is numeric dtype iff it is non-empty and no cell is a
string (an empty frame column defaults to object dtype). -/
def isNumericDtype (cells : List Cell) : Bool :=
  !cells.isEmpty && cells.all (fun c => match c with | .str _ => false | _ => true)

-- ---------------------------------------------------------------------
-- Name normalization (norm_name / fix_name_for_join, NAME_FIX)
-- ---------------------------------------------------------------------

/-- Python regex word character, restricted to the inputs this pipeline
meets: ASCII alphanumerics, underscore, and any non-ASCII letter
(Korean country names). -/
def isWordChar (c : Char) : Bool :=
  c.isAlphanum || c = '_' || decide (127 < c.toNat)

/-- Replace every maximal run of whitespace by one space
(`re.sub(r"\s+", " ", s)`). -/
def collapseWs (cs : List Char) (prevWs : Bool) : List Char :=
  match cs with
  | [] => []
  | c :: rest =>
    if c.isWhitespace then
      if prevWs then collapseWs rest true else ' ' :: collapseWs rest true
    else c :: collapseWs rest false

def norm_name (name : String) : String :=
  let s := pyStrip (pyLower name)
  let s := s.data.map (fun c => if !isWordChar c ∧ !c.isWhitespace then ' ' else c)
  ⟨collapseWs s false⟩

def NAME_FIX : List (String × String) := [
  ("united states", "united states of america"),
  ("usa", "united states of america"),
  ("u s a", "united states of america"),
  ("russia", "russian federation"),
  ("south korea", "korea republic of"),
  ("north korea", "korea democratic people s republic of"),
  ("czech", "czechia"),
  ("czech republic", "czechia"),
  ("swaziland", "eswatini"),
  ("cape verde", "cabo verde"),
  ("laos", "lao people s democratic republic"),
  ("moldova", "moldova republic of"),
  ("ivory coast", "cote d ivoire"),
  ("brunei darussalam", "brunei"),
  ("vatican", "holy see")]

def fix_name_for_join (s : String) : String :=
  let s0 := norm_name s
  match NAME_FIX.find? (fun p => decide (p.fst = s0)) with
  | some p => p.snd
  | none => s0

/-- `Series.apply(fix_name_for_join)` on one cell: `norm_name` returns
the empty string on any non-string input, which no alias maps. -/
def cellJoinKey : Cell → Cell
  | .str s => .str (fix_name_for_join s)
  | _ => .str ""

-- ---------------------------------------------------------------------
-- Schema detection
-- ---------------------------------------------------------------------

def MBTI_TYPES : List String := [
  "INTJ", "INTP", "ENTJ", "ENTP",
  "INFJ", "INFP", "ENFJ", "ENFP",
  "ISTJ", "ISFJ", "ESTJ", "ESFJ",
  "ISTP", "ISFP", "ESTP", "ESFP"]

/-- The fixed candidate names tried, in this order, before the
first-non-numeric-column fallback. -/
def CANDIDATES : List String :=
  ["Country", "country", "국가", "국가명", "Nation", "Region", "Country/Region"]

/-- auto_detect_country_col: first candidate name present (scanning the
candidate list, not the columns), else the first non-numeric column. -/
def auto_detect_country_col (t : Table) : Option String :=
  match CANDIDATES.find? (fun cand => decide (cand ∈ t.cols)) with
  | some c => some c
  | none => t.cols.find? (fun c => !isNumericDtype (t.getColD c))

/-- The columns whose upper-cased, trimmed header is one of the 16 type
codes, in column order (`mbti_cols_present`). -/
def mbtiColsPresent (cols : List String) : List String :=
  cols.filter (fun c => decide (pyStrip (pyUpper c) ∈ MBTI_TYPES))

/-- The type column of the long layout: first alias (in alias order)
that some column lowers to; the dict comprehension keeps the last such
column. -/
def typeColOf (cols : List String) : Option String :=
  (["type", "mbti", "mbti_type", "유형"].filterMap
    (fun k => (cols.filter (fun c => decide (pyLower c = k))).getLast?)).head?

def valueColOf (cols : List String) : Option String :=
  (["value", "percent", "percentage", "ratio", "비율", "퍼센트", "값"].filterMap
    (fun k => (cols.filter (fun c => decide (pyLower c = k))).getLast?)).head?

-- ---------------------------------------------------------------------
-- Pivot (long → wide) with mean aggregation
-- ---------------------------------------------------------------------

/-- The ascending value order pandas sorts group keys by, on the cell
values this pipeline groups by (strings; numbers for completeness). -/
def cellLe : Cell → Cell → Bool
  | .na, _ => true
  | _, .na => false
  | .num a, .num b => decide (a ≤ b)
  | .num _, .str _ => true
  | .str _, .num _ => false
  | .str a, .str b => charListLe a.data b.data

def cellLeP (a b : Cell) : Prop := cellLe a b = true

instance : DecidableRel cellLeP := fun a b => inferInstanceAs (Decidable (_ = true))

def ratListSum : List Rat → Rat
  | [] => 0
  | q :: qs => ratAdd q (ratListSum qs)

def cellNumVal? : Cell → Option Rat
  | .num q => some q
  | _ => none

def cellStrVal? : Cell → Option String
  | .str s => some s
  | _ => none

/-- `pivot_table(index=index, columns="Type", values="Value",
aggfunc="mean").reset_index()`: rows with a missing key or missing value
do not contribute (groupby drops NaN keys, mean skips NaN, and the
all-NaN aggregate rows/columns are dropped); group keys come out sorted
ascending; each (key, type) cell is the arithmetic mean of its group, or
NaN when the group is empty. -/
def pivotMean (t : Table) (index : String) : Table :=
  let good := t.rows.filter (fun r =>
    decide (t.cellAt index r ≠ .na ∧ t.cellAt "Type" r ≠ .na ∧ t.cellAt "Value" r ≠ .na))
  let keys := List.insertionSort cellLeP ((good.map (fun r => t.cellAt index r)).dedup)
  let tys := List.insertionSort strLeP
    ((good.filterMap (fun r => cellStrVal? (t.cellAt "Type" r))).dedup)
  let cellFor := fun (k : Cell) (ty : String) =>
    match good.filterMap (fun r =>
        if t.cellAt index r = k ∧ t.cellAt "Type" r = .str ty
        then cellNumVal? (t.cellAt "Value" r) else none) with
    | [] => Cell.na
    | vs => Cell.num (ratDiv (ratListSum vs) (vs.length : Rat))
  ⟨index :: tys, keys.map (fun k => k :: tys.map (fun ty => cellFor k ty))⟩

-- ---------------------------------------------------------------------
-- Shape reconciliation (to_wide_by_country, the live second definition)
-- ---------------------------------------------------------------------

/-- The loop adding every type column still missing, as all-NaN. -/
def addMissingTypes (w : Table) : Table :=
  MBTI_TYPES.foldl (fun w ty => if ty ∈ w.cols then w else w.appendConstCol ty .na) w

/-- The loop coercing every type column with
`pd.to_numeric(..., errors="coerce")`. -/
def coerceTypeCols (w : Table) : Table :=
  MBTI_TYPES.foldl (fun w ty => w.mapColByName ty toNumericCell) w

/-- The wide branch (4 or more detected type columns): select country
plus detected type columns, rename through `up_map` (which maps every
column of the frame, the country column included, to its upper-cased
trimmed label), synthesize missing types, coerce, reorder. -/
def wideBranch (df : Table) (cc : String) : Except PipelineError (Table × String) :=
  match df.select (cc :: mbtiColsPresent df.cols) with
  | .error e => .error e
  | .ok w =>
    let w := w.renameAll (fun c => pyStrip (pyUpper c))
    let w := addMissingTypes w
    let w := coerceTypeCols w
    match w.select (cc :: MBTI_TYPES) with
    | .error e => .error e
    | .ok w => .ok (w, cc)

/-- The long branch: select country/type/value, rename positionally,
upper-case and trim type values as strings, keep only canonical types,
coerce values, pivot by mean, synthesize missing types, reorder. -/
def longBranch (df : Table) (cc tc vc : String) : Except PipelineError (Table × String) :=
  match df.select [cc, tc, vc] with
  | .error e => .error e
  | .ok sel =>
    let lng : Table := ⟨[cc, "Type", "Value"], sel.rows⟩
    let lng := lng.mapColByName "Type" (fun c => .str (pyStrip (pyUpper (cellToStrPy c))))
    let lng := lng.filterRows (fun r =>
      match lng.cellAt "Type" r with
      | .str s => decide (s ∈ MBTI_TYPES)
      | _ => false)
    let lng := lng.mapColByName "Value" toNumericCell
    let w := pivotMean lng cc
    let w := addMissingTypes w
    match w.select (cc :: MBTI_TYPES) with
    | .error e => .error e
    | .ok w => .ok (w, cc)

/-- to_wide_by_country (the live definition at the bottom of the file;
the earlier homonymous definition is shadowed). Strips headers, detects
the country column (an empty-string label is falsy and also fails),
then takes the wide branch when 4 or more type columns are present,
else the long branch when both a type and a value alias resolve, else
raises the unrecognized-layout error. -/
def to_wide_by_country (t : Table) : Except PipelineError (Table × String) :=
  let df := t.stripCols
  match auto_detect_country_col df with
  | none => .error .schemaError
  | some cc =>
    if cc = "" then .error .schemaError
    else if 4 ≤ (mbtiColsPresent df.cols).length then wideBranch df cc
    else
      match typeColOf df.cols, valueColOf df.cols with
      | some tc, some vc => longBranch df cc tc vc
      | _, _ => .error .shapeError

-- ---------------------------------------------------------------------
-- The observable content of the long branch, read off the input rows
-- ---------------------------------------------------------------------

/-- The reconciled type label of one input row: the row's type cell
printed, upper-cased and trimmed, exactly as the long branch rewrites
its Type column. -/
def longTypeOf (df : Table) (tc : String) (r : List Cell) : String :=
  pyStrip (pyUpper (cellToStrPy (df.cellAt tc r)))

/-- The input rows contributing to the pivot: the reconciled type is
one of the 16 canonical codes (all other rows are discarded), the
country key is present and the value cell coerces to a number (rows
failing either are dropped by the pivot). -/
def longGood (df : Table) (cc tc vc : String) : List (List Cell) :=
  (df.rows.filter (fun r => decide (longTypeOf df tc r ∈ MBTI_TYPES))).filter
    (fun r => decide (df.cellAt cc r ≠ .na ∧ toNumericCell (df.cellAt vc r) ≠ .na))

/-- The distinct contributing country keys, in the ascending order the
pivot sorts its group keys into: one output row per country. -/
def longCountries (df : Table) (cc tc vc : String) : List Cell :=
  List.insertionSort cellLeP ((longGood df cc tc vc).map (fun r => df.cellAt cc r)).dedup

/-- The aggregate of one (country, type) group: the arithmetic mean of
the coerced values of the contributing rows carrying that country key
and that reconciled type, or missing when the group is empty. -/
def longMeanCell (df : Table) (cc tc vc : String) (k : Cell) (T : String) : Cell :=
  match (longGood df cc tc vc).filterMap (fun r =>
      if df.cellAt cc r = k ∧ longTypeOf df tc r = T
      then cellNumVal? (toNumericCell (df.cellAt vc r)) else none) with
  | [] => Cell.na
  | vs => Cell.num (ratDiv (ratListSum vs) (vs.length : Rat))

-- ---------------------------------------------------------------------
-- Row normalization (normalize_rows_to_100)
-- ---------------------------------------------------------------------

/-- `X.sum(axis=1, skipna=True)` over one row of type cells. -/
def sumSkipNa : List Cell → Rat
  | [] => 0
  | c :: cs => ratAdd (match c with | .num q => q | _ => 0) (sumSkipNa cs)

/-- One step of `X.div(row_sum, axis=0) * 100.0`: NaN in either operand
propagates. -/
def cellDivMul100 : Cell → Cell → Cell
  | .num x, .num s => .num (ratMul (ratDiv x s) 100)
  | _, _ => .na

/-- Write values back into a row at the given column positions
(`out[MBTI_TYPES] = ...`). -/
def writeCells (r : List Cell) : List (Nat × Cell) → List Cell
  | [] => r
  | (i, v) :: rest => writeCells (r.set i v) rest

/-- normalize_rows_to_100: select the 16 type columns, coerce to float,
sum each row skipping NaN, replace a zero sum by NaN, divide and scale
to 100, and write the result back over the type columns. The country
column argument is unused, as in the source. -/
def normalize_rows_to_100 (wide : Table) (country_col : String) : Except PipelineError Table :=
  match mapE (fun c => (wide.colIdx c).elim (Except.error .keyError) Except.ok) MBTI_TYPES with
  | .error e => .error e
  | .ok idxs =>
    match mapE (fun r =>
      match mapE astypeFloatCell (idxs.map (fun i => r.getD i .na)) with
      | .error e => .error e
      | .ok xs =>
        let s := sumSkipNa xs
        let rs : Cell := if s = 0 then Cell.na else Cell.num s
        Except.ok (writeCells r (idxs.zip (xs.map (fun x => cellDivMul100 x rs))))) wide.rows with
    | .error e => .error e
    | .ok rows => .ok ⟨wide.cols, rows⟩

/-- The 16 type cells of one row, read by canonical column name. -/
def rowTypeCells (t : Table) (r : List Cell) : List Cell :=
  MBTI_TYPES.map (fun c => t.cellAt c r)

-- ---------------------------------------------------------------------
-- Climate classification and the geo-join stage
-- ---------------------------------------------------------------------

/-- classify_climate on a present absolute latitude. -/
def classify_climate (absLat : Rat) : String :=
  if absLat < Rat.divInt 47 2 then "Tropical"
  else if absLat < 35 then "Subtropical"
  else if absLat < 60 then "Temperate"
  else "Polar"

/-- classify_climate applied to one cell of the AbsLat column
(`pd.isna` catches NaN first; the column only holds numbers or NaN). -/
def classifyCell : Cell → Cell
  | .num q => .str (classify_climate q)
  | _ => .str "Unknown"

/-- `Series.abs()` on one cell: raises on a string element. -/
def cellAbsE : Cell → Except PipelineError Cell
  | .num q => .ok (.num (ratAbs q))
  | .na => .ok .na
  | .str _ => .error .typeError

/-- `Series.fillna("Unknown")` on one cell. -/
def fillUnknown (c : Cell) : Cell :=
  if c = .na then .str "Unknown" else c

/-- One step of the lenient reference-header matching: when the needed
label is absent, rename the first present alias to it. -/
def lenientRename1 (t : Table) (need : String) (alts : List String) : Table :=
  if need ∈ t.cols then t
  else
    match alts.find? (fun a => decide (a ∈ t.cols)) with
    | some a => t.renameAll (fun c => if c = a then need else c)
    | none => t

def CAP_ALIASES : List (String × List String) := [
  ("CountryName", ["CountryName", "Country", "Name", "Country Name"]),
  ("CapitalLatitude", ["CapitalLatitude", "Latitude", "Capital Latitude"]),
  ("CapitalLongitude", ["CapitalLongitude", "Longitude", "Capital Longitude"]),
  ("ContinentName", ["ContinentName", "Continent"])]

def lenientRename (t : Table) : Table :=
  CAP_ALIASES.foldl (fun t p => lenientRename1 t p.fst p.snd) t

def CAPS_COLS : List String :=
  ["_join", "CountryName", "CapitalLatitude", "CapitalLongitude", "ContinentName"]

/-- `left.merge(right, on=key, how="left")`: every left row survives;
unmatched rows carry NaN in the right-hand columns; each match
duplicates the left row. -/
def Table.mergeLeft (l r : Table) (key : String) : Table :=
  let rCols := r.cols.filter (fun c => decide (c ≠ key))
  ⟨l.cols ++ rCols,
    (l.rows.map (fun lr =>
      let k := l.cellAt key lr
      match r.rows.filter (fun rr => decide (r.cellAt key rr = k)) with
      | [] => [lr ++ rCols.map (fun _ => Cell.na)]
      | ms => ms.map (fun rr => lr ++ rCols.map (fun c => r.cellAt c rr)))).flatten⟩

/-- The capitals try/except (lines 288-296): an uploaded file wins, the
remote fetch is the fallback, and a fetch failure leaves the reference
frame absent instead of propagating. -/
def capitalsResult (cap_up : Option Table) (fetch : Except Unit Table) : Option Table :=
  match cap_up with
  | some t => some t
  | none =>
    match fetch with
    | .ok t => some t
    | .error _ => none

/-- The geo-join stage (lines 299-333): stamps the join key onto the
normalized table in place, prepares the reference frame (or an empty
one with the canonical headers when it is absent), left-merges, derives
AbsLat, ClimateZone and Continent. Returns the final value of the
mutated input table together with the geo table. -/
def geo_stage (wide_norm : Table) (country_col : String) (capitals_df : Option Table) :
    Except PipelineError (Table × Table) :=
  match wide_norm.colIdx country_col with
  | none => .error .keyError
  | some _ =>
    let wn := wide_norm.setCol "_join" ((wide_norm.getColD country_col).map cellJoinKey)
    let capsRes : Except PipelineError (Table × Option String) :=
      match capitals_df with
      | some t =>
        let caps := lenientRename t
        match caps.colIdx "CountryName" with
        | none => .error .keyError
        | some _ =>
          let caps := caps.setCol "_join" ((caps.getColD "CountryName").map cellJoinKey)
          match caps.select CAPS_COLS with
          | .error e => .error e
          | .ok caps => .ok (caps, some "ContinentName")
      | none => .ok (⟨CAPS_COLS, []⟩, none)
    match capsRes with
    | .error e => .error e
    | .ok (caps, continent_col) =>
      let geo := wn.mergeLeft caps "_join"
      match mapE cellAbsE (geo.getColD "CapitalLatitude") with
      | .error e => .error e
      | .ok absCells =>
        let geo := geo.setCol "AbsLat" absCells
        let geo := geo.setCol "ClimateZone" ((geo.getColD "AbsLat").map classifyCell)
        let contVals :=
          match continent_col with
          | some c => geo.getColD c
          | none => geo.rows.map (fun _ => Cell.str "Unknown")
        let geo := geo.setCol "Continent" contVals
        let geo := geo.mapColByName "Continent" fillUnknown
        .ok (wn, geo)

/-- Whether a cell is a string or missing (not numeric): the shape the
pivot sorts without error. -/
def cellIsStrOrNa : Cell → Bool
  | .num _ => false
  | _ => true

/-- The reserved labels the geo-join stage introduces or reads. -/
def GEO_FRESH : List String :=
  ["_join", "CountryName", "CapitalLatitude", "CapitalLongitude", "ContinentName",
   "AbsLat", "ClimateZone", "Continent"]

-- ---------------------------------------------------------------------
-- Concrete tables used by the claim theorems
-- ---------------------------------------------------------------------

instance {ε α : Type} [DecidableEq ε] [DecidableEq α] : DecidableEq (Except ε α) :=
  fun a b => match a, b with
  | .error x, .error y => decidable_of_iff (x = y) (by constructor <;> (intro h; cases h; rfl))
  | .ok x, .ok y => decidable_of_iff (x = y) (by constructor <;> (intro h; cases h; rfl))
  | .error _, .ok _ => .isFalse (by intro h; cases h)
  | .ok _, .error _ => .isFalse (by intro h; cases h)

/-- A wide-shape table: a candidate country header plus four detected
type columns. -/
def C1_input : Table :=
  ⟨["Country", "INTJ", "INTP", "ENTJ", "ENTP"],
    [[.str "Korea", .num 1, .num 2, .num 3, .num 4]]⟩

/-- Canonical wide tables for the row-normalizer: one row summing to 16,
one all-missing row. -/
def C2_input : Table :=
  ⟨"Country" :: MBTI_TYPES,
    [.str "A" :: List.replicate 16 (Cell.num 1),
     .str "B" :: List.replicate 16 Cell.na]⟩

def C2_expected : Table :=
  ⟨"Country" :: MBTI_TYPES,
    [.str "A" :: List.replicate 16 (Cell.num (mkRat 25 4)),
     .str "B" :: List.replicate 16 Cell.na]⟩

/-- Long-shape tables whose country headers differ. -/
def C3_input_nation : Table :=
  ⟨["Nation", "Type", "Value"], [[.str "A", .str "INFP", .num 1]]⟩

def C3_input_korean : Table :=
  ⟨["국가", "Type", "Value"], [[.str "A", .str "INFP", .num 1]]⟩

def C3_output_nation : Table :=
  ⟨"Nation" :: MBTI_TYPES,
    [[.str "A", .na, .na, .na, .na, .na, .num 1, .na, .na, .na, .na, .na, .na, .na, .na, .na, .na]]⟩

/-- A canonical one-row table for the geo-join stage. -/
def C5_input : Table :=
  ⟨"Country" :: MBTI_TYPES, [.str "Korea" :: List.replicate 16 (Cell.num 1)]⟩

/-- All columns numeric dtype, no candidate header. -/
def C6_input_numeric : Table :=
  ⟨["a", "b"], [[.num 1, .num 2], [.num 3, .num 4]]⟩

/-- Two candidate headers, the column-order-first one not in candidate
priority position. -/
def C6_input_two_candidates : Table :=
  ⟨["Nation", "Country"], [[.str "x", .str "y"]]⟩

/-- No candidate-named column at all: a numeric first column followed by
a non-numeric one, exercising the first-non-numeric-column fallback of
the detector. -/
def C6_input_fallback : Table :=
  ⟨["a", "name"], [[.num 1, .str "x"]]⟩

/-- Two type columns only: neither wide (fewer than 4) nor long (no
type/value aliases). -/
def C7_input : Table :=
  ⟨["Country", "INTJ", "INTP"], [[.str "A", .num 1, .num 2]]⟩

/-- Long-shape input: aliased type/value headers, type values needing
upper-casing and trimming, one non-canonical type row, one unparseable
value row, duplicate (country, type) pairs, countries out of order. -/
def C8_input : Table :=
  ⟨["Country", "MBTI_Type", "Percent"],
    [[.str "Y", .str "estp", .num 7],
     [.str "X", .str " infp ", .num 10],
     [.str "X", .str "InFp", .num 20],
     [.str "X", .str "ABCD", .num 99],
     [.str "Y", .str "ESTP", .str "oops"]]⟩

def C8_expected : Table :=
  ⟨"Country" :: MBTI_TYPES,
    [[.str "X", .na, .na, .na, .na, .na, .num 15, .na, .na, .na, .na, .na, .na, .na, .na, .na, .na],
     [.str "Y", .na, .na, .na, .na, .na, .na, .na, .na, .na, .na, .na, .na, .na, .na, .num 7, .na]]⟩

/-- A canonical one-row table for the mutation counterexample. -/
def C9_input : Table :=
  ⟨"Country" :: MBTI_TYPES, [.str "Korea" :: List.replicate 16 (Cell.num 1)]⟩

/-- The final value of the geo-join input: the _join column has been
stamped onto it. -/
def C9_input_mutated : Table :=
  ⟨("Country" :: MBTI_TYPES) ++ ["_join"],
    [(.str "Korea" :: List.replicate 16 (Cell.num 1)) ++ [.str "korea"]]⟩

/-- A wide-shape table whose country header is unchanged by
upper-casing, so the wide branch succeeds. -/
def C10_input_wide : Table :=
  ⟨["국가", "INTJ", "INTP", "ENTJ", "ENTP"],
    [[.str "B", .num 1, .num 2, .num 3, .num 4],
     [.str "A", .num 5, .num 6, .num 7, .num 8]]⟩

/-- A long-shape table whose countries appear out of order. -/
def C10_input_long : Table :=
  ⟨["Country", "Type", "Value"],
    [[.str "Y", .str "INFP", .num 1], [.str "X", .str "ENTJ", .num 2]]⟩

def C10_output_wide : Table :=
  ⟨"국가" :: MBTI_TYPES,
    [[.str "B", .num 1, .num 2, .num 3, .num 4, .na, .na, .na, .na, .na, .na, .na, .na, .na, .na, .na, .na],
     [.str "A", .num 5, .num 6, .num 7, .num 8, .na, .na, .na, .na, .na, .na, .na, .na, .na, .na, .na, .na]]⟩

def C10_output_long : Table :=
  ⟨"Country" :: MBTI_TYPES,
    [[.str "X", .na, .na, .num 2, .na, .na, .na, .na, .na, .na, .na, .na, .na, .na, .na, .na, .na],
     [.str "Y", .na, .na, .na, .na, .na, .num 1, .na, .na, .na, .na, .na, .na, .na, .na, .na, .na]]⟩

-- ---------------------------------------------------------------------
-- The kernel-evaluable rational operations agree with the library ones
-- ---------------------------------------------------------------------

theorem ratAdd_eq (a b : Rat) : ratAdd a b = a + b := by
  have ha : ((a.den : Rat)) ≠ 0 := by exact_mod_cast a.den_ne_zero
  have hb : ((b.den : Rat)) ≠ 0 := by exact_mod_cast b.den_ne_zero
  rw [ratAdd, Rat.divInt_eq_div]
  conv_rhs => rw [← Rat.num_div_den a, ← Rat.num_div_den b]
  push_cast
  field_simp

theorem ratMul_eq (a b : Rat) : ratMul a b = a * b := by
  have ha : ((a.den : Rat)) ≠ 0 := by exact_mod_cast a.den_ne_zero
  have hb : ((b.den : Rat)) ≠ 0 := by exact_mod_cast b.den_ne_zero
  rw [ratMul, Rat.divInt_eq_div]
  conv_rhs => rw [← Rat.num_div_den a, ← Rat.num_div_den b]
  push_cast
  field_simp

theorem ratDiv_eq (a b : Rat) : ratDiv a b = a / b := by
  rcases eq_or_ne b 0 with rfl | hb0
  · simp [ratDiv, Rat.divInt_eq_div]
  · have ha : ((a.den : Rat)) ≠ 0 := by exact_mod_cast a.den_ne_zero
    have hb : ((b.den : Rat)) ≠ 0 := by exact_mod_cast b.den_ne_zero
    have hbn : ((b.num : Rat)) ≠ 0 := by exact_mod_cast Rat.num_ne_zero.2 hb0
    rw [ratDiv, Rat.divInt_eq_div]
    conv_rhs => rw [← Rat.num_div_den a, ← Rat.num_div_den b]
    push_cast
    field_simp

theorem ratNeg_eq (a : Rat) : ratNeg a = -a := by
  have ha : ((a.den : Rat)) ≠ 0 := by exact_mod_cast a.den_ne_zero
  rw [ratNeg, Rat.divInt_eq_div]
  conv_rhs => rw [← Rat.num_div_den a]
  push_cast
  field_simp

theorem ratAbs_eq (a : Rat) : ratAbs a = |a| := by
  rw [ratAbs]
  rcases lt_or_le a.num 0 with h | h
  · rw [if_pos h, ratNeg_eq, abs_of_neg]
    exact_mod_cast Rat.num_neg.1 h
  · rw [if_neg (not_lt.2 h), abs_of_nonneg]
    exact_mod_cast Rat.num_nonneg.1 h

-- ---------------------------------------------------------------------
-- Claim theorems
-- ---------------------------------------------------------------------

/-- Claim C1: the claim states that every valid wide-shape input (4 or
more detected type columns) reconciles successfully into the 17-column
canonical table. The live code instead renames the selected country
column through up_map to its upper-cased form and then selects it under
its original name: on a wide table whose country header is "Country"
(with four type columns present), to_wide_by_country raises KeyError
instead of succeeding. -/
theorem C1_wide_country_header_key_error :
    to_wide_by_country C1_input = .error .keyError := by decide

/-- Claim C4: the join keys of "USA", "U.S.A" and "usa" coincide and
equal the key of the reference name "United States of America", namely
"united states of america". -/
theorem C4_usa_join_keys :
    fix_name_for_join "USA" = "united states of america" ∧
    fix_name_for_join "U.S.A" = "united states of america" ∧
    fix_name_for_join "usa" = "united states of america" ∧
    fix_name_for_join "United States of America" = "united states of america" := by decide

/-- Claim C3 counterexample: the claim states that the detected country
column is renamed to one fixed canonical identifier, so that the output
country column name does not depend on the source header. On two
long-shape inputs whose country headers are "Nation" and "국가", the
returned tables keep those distinct original headers as their first
column: no fixed renaming happens in the live code. -/
theorem C3_counterexample :
    (to_wide_by_country C3_input_nation).map (fun p => p.1.cols.head?) = .ok (some "Nation") ∧
    (to_wide_by_country C3_input_korean).map (fun p => p.1.cols.head?) = .ok (some "국가") ∧
    "Nation" ≠ "국가" := by decide

/-- Claim C6 counterexample: the claim states that when candidate-named
columns exist, the first such column in original column order is
returned. With columns ["Nation", "Country"] (both candidate names,
"Nation" first in column order), detection returns "Country", because
the code scans the fixed candidate list in priority order instead. -/
theorem C6_counterexample :
    auto_detect_country_col C6_input_two_candidates = some "Country" ∧
    C6_input_two_candidates.cols = ["Nation", "Country"] ∧
    "Nation" ∈ CANDIDATES ∧
    some "Country" ≠ some "Nation" := by decide

/-- Claim C9 counterexample: the claim states that no stage mutates its
input table. The geo-join stage stamps the _join column onto the
normalized table it receives (line 299): after the stage runs on
C9_input, the input object holds an extra _join column, so it is no
longer equal to the table that was passed in. -/
theorem C9_counterexample :
    (geo_stage C9_input "Country" (capitalsResult none (.error ()))).map Prod.fst =
      .ok C9_input_mutated ∧
    C9_input_mutated ≠ C9_input := by decide

/-- Claim C7: a table with fewer than 4 detected type columns whose
headers resolve no (type, value) alias pair fails reconciliation with
the unrecognized-layout error (given that country detection succeeded,
which the reconciler contract presupposes). -/
theorem C7_unrecognized_layout_shape_error (t : Table) (cc : String)
    (hdet : auto_detect_country_col t.stripCols = some cc)
    (hcc : cc ≠ "")
    (hfew : (mbtiColsPresent t.stripCols.cols).length < 4)
    (hlay : typeColOf t.stripCols.cols = none ∨ valueColOf t.stripCols.cols = none) :
    to_wide_by_country t = .error .shapeError := by
  simp only [to_wide_by_country]
  rw [hdet]
  dsimp only
  rw [if_neg hcc, if_neg (by omega)]
  rcases hlay with h | h
  · rcases h2 : valueColOf t.stripCols.cols with _ | vc <;> simp only [h, h2]
  · rcases h2 : typeColOf t.stripCols.cols with _ | tc <;> simp only [h, h2]

/-- Claim C7 witness: the table with columns [Country, INTJ, INTP] has
two detected type columns and no type/value aliases, and reconciliation
fails with the unrecognized-layout error. -/
theorem C7_unrecognized_layout_shape_error_witness :
    to_wide_by_country C7_input = .error .shapeError :=
  C7_unrecognized_layout_shape_error C7_input "Country" (by decide) (by decide)
    (by decide) (Or.inl (by decide))

/-- Selection returns a frame whose header is exactly the requested
label list. -/
theorem Table.select_ok_cols {t u : Table} {cs : List String}
    (h : t.select cs = .ok u) : u.cols = cs := by
  unfold Table.select at h
  split at h
  · exact Except.noConfusion h
  · cases h; rfl

/-- Claim C3 (amended): the reconciler does not rename the country
column to a fixed identifier; the returned table keeps the detected
source header (as stripped) as its first column, followed by the 16
canonical type columns, and that header is returned as the second
component for downstream use. -/
theorem C3_country_column_keeps_detected_name (t w : Table) (cc : String)
    (h : to_wide_by_country t = .ok (w, cc)) :
    w.cols = cc :: MBTI_TYPES ∧ auto_detect_country_col t.stripCols = some cc := by
  simp only [to_wide_by_country] at h
  rcases hdet : auto_detect_country_col t.stripCols with _ | cc2
  · rw [hdet] at h; exact Except.noConfusion h
  · rw [hdet] at h; dsimp only at h
    by_cases hcc2 : cc2 = ""
    · rw [if_pos hcc2] at h; exact Except.noConfusion h
    · rw [if_neg hcc2] at h
      by_cases hw : 4 ≤ (mbtiColsPresent t.stripCols.cols).length
      · rw [if_pos hw] at h
        unfold wideBranch at h
        split at h
        · exact Except.noConfusion h
        · dsimp only at h
          split at h
          · exact Except.noConfusion h
          · rename_i w2 hsel
            cases h
            exact ⟨Table.select_ok_cols hsel, rfl⟩
      · rw [if_neg hw] at h
        rcases h1 : typeColOf t.stripCols.cols with _ | tc <;> rw [h1] at h <;>
          rcases h2 : valueColOf t.stripCols.cols with _ | vc <;> rw [h2] at h <;>
            dsimp only at h
        · exact Except.noConfusion h
        · exact Except.noConfusion h
        · exact Except.noConfusion h
        · unfold longBranch at h
          split at h
          · exact Except.noConfusion h
          · dsimp only at h
            split at h
            · exact Except.noConfusion h
            · rename_i w2 hsel
              cases h
              exact ⟨Table.select_ok_cols hsel, rfl⟩

/-- Claim C3 (amended) witness: on the long-shape table with header
"Nation", the output keeps "Nation" as its first column and detection
reports "Nation". -/
theorem C3_country_column_keeps_detected_name_witness :
    C3_output_nation.cols = "Nation" :: MBTI_TYPES ∧
    auto_detect_country_col C3_input_nation.stripCols = some "Nation" :=
  C3_country_column_keeps_detected_name C3_input_nation C3_output_nation "Nation" (by decide)

/-- The first element of the suffix is found when everything before it
fails the predicate and it passes. -/
theorem find?_append_first {α : Type} {p : α → Bool} {c : α} {l2 : List α} :
    ∀ l1 : List α, (∀ x ∈ l1, p x = false) → p c = true →
      List.find? p (l1 ++ c :: l2) = some c := by
  intro l1
  induction l1 with
  | nil =>
    intro _ hc
    rw [List.nil_append]
    exact List.find?_cons_of_pos _ hc
  | cons x rest ih =>
    intro hall hc
    rw [List.cons_append, List.find?_cons_of_neg]
    · exact ih (fun y hy => hall y (List.mem_cons_of_mem x hy)) hc
    · rw [hall x (List.mem_cons_self x rest)]
      exact Bool.false_ne_true

/-- Claim C6 (amended): a table with no candidate-named column and only
numeric-dtype columns fails detection, and the pipeline fails with the
schema error; when candidate-named columns exist, the one found first
in the fixed candidate-list priority order (not in column order) is
returned; otherwise — no candidate present but some non-numeric column
exists — the first non-numeric column (everything left of it being
numeric-dtype) is returned. -/
theorem C6_detection_priority_and_schema_error (t : Table) :
    ((∀ c ∈ t.stripCols.cols, c ∉ CANDIDATES) →
     (∀ c ∈ t.stripCols.cols, isNumericDtype (t.stripCols.getColD c) = true) →
      auto_detect_country_col t.stripCols = none ∧
      to_wide_by_country t = .error .schemaError) ∧
    (∀ c, CANDIDATES.find? (fun cand => decide (cand ∈ t.stripCols.cols)) = some c →
      auto_detect_country_col t.stripCols = some c) ∧
    (∀ l1 c l2, (∀ cand ∈ CANDIDATES, cand ∉ t.stripCols.cols) →
      t.stripCols.cols = l1 ++ c :: l2 →
      (∀ c2 ∈ l1, isNumericDtype (t.stripCols.getColD c2) = true) →
      isNumericDtype (t.stripCols.getColD c) = false →
      auto_detect_country_col t.stripCols = some c) := by
  refine ⟨?_, ?_, ?_⟩
  · intro hnc hnum
    have hdet : auto_detect_country_col t.stripCols = none := by
      unfold auto_detect_country_col
      have h1 : CANDIDATES.find? (fun cand => decide (cand ∈ t.stripCols.cols)) = none := by
        rw [List.find?_eq_none]
        intro cand hcand
        simp only [decide_eq_true_eq]
        intro hmem
        exact hnc cand hmem hcand
      rw [h1]
      rw [List.find?_eq_none]
      intro c hc
      simp [hnum c hc]
    refine ⟨hdet, ?_⟩
    simp only [to_wide_by_country]
    rw [hdet]
  · intro c hfind
    unfold auto_detect_country_col
    rw [hfind]
  · intro l1 c l2 hnc hcols hnum hc
    unfold auto_detect_country_col
    have h1 : CANDIDATES.find? (fun cand => decide (cand ∈ t.stripCols.cols)) = none := by
      rw [List.find?_eq_none]
      intro cand hcand
      simp only [decide_eq_true_eq]
      exact hnc cand hcand
    rw [h1]
    show t.stripCols.cols.find? (fun c2 => !isNumericDtype (t.stripCols.getColD c2)) = some c
    rw [hcols]
    refine find?_append_first l1 (fun x hx => ?_) ?_
    · rw [hnum x hx]; rfl
    · rw [hc]; rfl

/-- Claim C6 (amended) witness: the all-numeric two-column table fails
with the schema error; with columns [Nation, Country] detection returns
the candidate-priority match "Country"; and with columns [a, name]
(numeric a, no candidate name) the fallback returns the first
non-numeric column "name". -/
theorem C6_detection_priority_and_schema_error_witness :
    to_wide_by_country C6_input_numeric = .error .schemaError ∧
    auto_detect_country_col C6_input_two_candidates.stripCols = some "Country" ∧
    auto_detect_country_col C6_input_fallback.stripCols = some "name" :=
  ⟨((C6_detection_priority_and_schema_error C6_input_numeric).1 (by decide) (by decide)).2,
   (C6_detection_priority_and_schema_error C6_input_two_candidates).2.1 "Country" (by decide),
   (C6_detection_priority_and_schema_error C6_input_fallback).2.2 ["a"] "name" []
     (by decide) (by decide) (by decide) (by decide)⟩

/-- A label that is not among the columns has no column index. -/
theorem Table.colIdx_eq_none {t : Table} {c : String} (h : c ∉ t.cols) :
    t.colIdx c = none := by
  unfold Table.colIdx
  rw [List.findIdx?_eq_none_iff]
  intro x hx
  rw [decide_eq_false_iff_not]
  rintro rfl
  exact h hx

theorem zipWith_append_take {n : Nat} :
    ∀ (rows : List (List Cell)) (vals : List Cell),
      (∀ r ∈ rows, r.length = n) → vals.length = rows.length →
      (rows.zipWith (fun r v => r ++ [v]) vals).map (fun r => r.take n) = rows := by
  intro rows
  induction rows with
  | nil => intro vals _ _; rfl
  | cons r rest ih =>
    intro vals hlen hv
    cases vals with
    | nil => exact absurd hv.symm (by simp)
    | cons v vs =>
      simp only [List.zipWith_cons_cons, List.map_cons]
      rw [List.take_left' (hlen r (List.mem_cons_self r rest)),
        ih vs (fun x hx => hlen x (List.mem_cons_of_mem r hx)) (by simpa using hv)]

/-- Claim C9 (amended): the reconciler and the row normalizer copy
their inputs, but the geo-join stage does mutate its input table: it
appends the _join column to it in place. The mutation is limited to
that appended column — the original header and all original cells are
unchanged. -/
theorem C9_geo_stage_appends_join_only (wn : Table) (cc : String) (caps : Option Table)
    (p : Table × Table)
    (hj : "_join" ∉ wn.cols)
    (hlen : ∀ r ∈ wn.rows, r.length = wn.cols.length)
    (h : geo_stage wn cc caps = .ok p) :
    p.1.cols = wn.cols ++ ["_join"] ∧
    p.1.rows.map (fun r => r.take wn.cols.length) = wn.rows := by
  unfold geo_stage at h
  rcases hidx : wn.colIdx cc with _ | i
  · rw [hidx] at h; exact Except.noConfusion h
  · rw [hidx] at h
    dsimp only at h
    have hvals : ((wn.getColD cc).map cellJoinKey).length = wn.rows.length := by
      unfold Table.getColD
      rw [hidx]
      simp
    have hset : wn.setCol "_join" ((wn.getColD cc).map cellJoinKey) =
        ⟨wn.cols ++ ["_join"],
          wn.rows.zipWith (fun r v => r ++ [v]) ((wn.getColD cc).map cellJoinKey)⟩ := by
      unfold Table.setCol
      rw [Table.colIdx_eq_none hj]
    rw [hset] at h
    have hgoal : ∀ geo : Table,
        p = (⟨wn.cols ++ ["_join"],
          wn.rows.zipWith (fun r v => r ++ [v]) ((wn.getColD cc).map cellJoinKey)⟩, geo) →
        p.1.cols = wn.cols ++ ["_join"] ∧
        p.1.rows.map (fun r => r.take wn.cols.length) = wn.rows := by
      intro geo hp
      subst hp
      exact ⟨rfl, zipWith_append_take wn.rows _ hlen hvals⟩
    split at h
    · exact Except.noConfusion h
    · split at h
      · exact Except.noConfusion h
      · cases h
        exact hgoal _ rfl

/-- Claim C9 (amended) witness: on the concrete canonical table the geo
stage returns a mutated input with header Country, the 16 types, then
_join, whose prefix rows are the original rows. -/
theorem C9_geo_stage_appends_join_only_witness :
    C9_input_mutated.cols = C9_input.cols ++ ["_join"] ∧
    C9_input_mutated.rows.map (fun r => r.take C9_input.cols.length) = C9_input.rows :=
  C9_geo_stage_appends_join_only C9_input "Country" none (C9_input_mutated,
    (geo_stage C9_input "Country" none).toOption.elim C9_input Prod.snd)
    (by decide) (by decide) (by decide)

-- ---------------------------------------------------------------------
-- Infrastructure for the row-normalizer claim
-- ---------------------------------------------------------------------

theorem mapE_ok_forall₂ {α β : Type} {ε : Type} {f : α → Except ε β} :
    ∀ {l : List α} {l2 : List β}, mapE f l = .ok l2 →
      List.Forall₂ (fun a b => f a = .ok b) l l2 := by
  intro l
  induction l with
  | nil =>
    intro l2 h
    unfold mapE at h
    cases h
    exact List.Forall₂.nil
  | cons a as ih =>
    intro l2 h
    unfold mapE at h
    split at h
    · exact Except.noConfusion h
    · rename_i b hb
      split at h
      · exact Except.noConfusion h
      · rename_i bs hbs
        cases h
        exact List.Forall₂.cons hb (ih hbs)

theorem forall₂_getD {α β : Type} {R : α → β → Prop} (da : α) (db : β) :
    ∀ {l1 : List α} {l2 : List β}, List.Forall₂ R l1 l2 →
      ∀ k, k < l1.length → R (l1.getD k da) (l2.getD k db) := by
  intro l1 l2 h
  induction h with
  | nil => intro k hk; exact absurd hk (by simp)
  | cons hab htl ih =>
    intro k hk
    cases k with
    | zero => exact hab
    | succ k => exact ih k (by simpa using hk)

theorem forall₂_mem_right {α β : Type} {R : α → β → Prop} :
    ∀ {l1 : List α} {l2 : List β}, List.Forall₂ R l1 l2 →
      ∀ b ∈ l2, ∃ a ∈ l1, R a b := by
  intro l1 l2 h
  induction h with
  | nil => intro b hb; exact absurd hb (by simp)
  | cons hab htl ih =>
    intro b hb
    rcases List.mem_cons.1 hb with rfl | hb2
    · exact ⟨_, List.mem_cons_self _ _, hab⟩
    · rcases ih b hb2 with ⟨a, ha, hr⟩
      exact ⟨a, List.mem_cons_of_mem _ ha, hr⟩

theorem forall₂_nodup_right {α β : Type} {R : α → β → Prop}
    (hinj : ∀ a1 a2 b, R a1 b → R a2 b → a1 = a2) :
    ∀ {l1 : List α} {l2 : List β}, List.Forall₂ R l1 l2 → l1.Nodup → l2.Nodup := by
  intro l1 l2 h
  induction h with
  | nil => intro _; exact List.nodup_nil
  | cons hab htl ih =>
    intro hnd
    rcases List.nodup_cons.1 hnd with ⟨hna, hnd2⟩
    refine List.nodup_cons.2 ⟨?_, ih hnd2⟩
    intro hbmem
    rcases forall₂_mem_right htl _ hbmem with ⟨a2, ha2, hr⟩
    exact hna ((hinj _ _ _ hab hr) ▸ ha2)

/-- A found column index is in range and the header there is the
label looked up. -/
theorem findIdx?_some_spec {α : Type} {p : α → Bool} :
    ∀ {l : List α} {s i : Nat}, List.findIdx? p l s = some i →
      s ≤ i ∧ i - s < l.length ∧ ∀ d, p (l.getD (i - s) d) = true := by
  intro l
  induction l with
  | nil =>
    intro s i h
    rw [show List.findIdx? p ([] : List α) s = none from rfl] at h
    exact Option.noConfusion h
  | cons a as ih =>
    intro s i h
    rw [List.findIdx?_cons] at h
    by_cases hp : p a = true
    · rw [if_pos hp] at h
      cases h
      exact ⟨Nat.le_refl _, by simp, fun d => by simpa using hp⟩
    · rw [if_neg hp] at h
      rcases ih h with ⟨hs, hlt, hd⟩
      refine ⟨by omega, by simp; omega, fun d => ?_⟩
      have : i - s = (i - (s + 1)) + 1 := by omega
      rw [this]
      simpa using hd d

theorem colIdx_some_spec {t : Table} {c : String} {i : Nat} (h : t.colIdx c = some i) :
    i < t.cols.length ∧ ∀ d, t.cols.getD i d = c := by
  unfold Table.colIdx at h
  rcases findIdx?_some_spec h with ⟨_, hlt, hd⟩
  simp only [Nat.sub_zero] at hlt hd
  exact ⟨hlt, fun d => of_decide_eq_true (hd d)⟩

theorem colIdx_inj {t : Table} {c1 c2 : String} {i : Nat}
    (h1 : t.colIdx c1 = some i) (h2 : t.colIdx c2 = some i) : c1 = c2 := by
  rcases colIdx_some_spec h1 with ⟨_, hd1⟩
  rcases colIdx_some_spec h2 with ⟨_, hd2⟩
  rw [← hd1 "", ← hd2 ""]

theorem writeCells_length : ∀ (ps : List (Nat × Cell)) (r : List Cell),
    (writeCells r ps).length = r.length := by
  intro ps
  induction ps with
  | nil => intro r; rfl
  | cons p rest ih =>
    intro r
    rcases p with ⟨i, v⟩
    rw [writeCells, ih, List.length_set]

theorem writeCells_getD_not_mem : ∀ (ps : List (Nat × Cell)) (r : List Cell) (j : Nat),
    j ∉ ps.map Prod.fst → (writeCells r ps).getD j .na = r.getD j .na := by
  intro ps
  induction ps with
  | nil => intro r j _; rfl
  | cons p rest ih =>
    intro r j hj
    rcases p with ⟨i, v⟩
    simp only [List.map_cons, List.mem_cons, not_or] at hj
    rw [writeCells, ih _ _ hj.2, List.getD_eq_getElem?_getD, List.getElem?_set_ne (fun hij => hj.1 hij.symm),
      ← List.getD_eq_getElem?_getD]

theorem writeCells_getD_at : ∀ (ps : List (Nat × Cell)) (r : List Cell) (k : Nat),
    (ps.map Prod.fst).Nodup → k < ps.length →
    (writeCells r ps).getD (ps.getD k (0, .na)).1 .na =
      (if (ps.getD k (0, .na)).1 < r.length then (ps.getD k (0, .na)).2 else .na) := by
  intro ps
  induction ps with
  | nil => intro r k _ hk; exact absurd hk (by simp)
  | cons p rest ih =>
    intro r k hnd hk
    rcases p with ⟨i, v⟩
    simp only [List.map_cons, List.nodup_cons] at hnd
    cases k with
    | zero =>
      simp only [List.getD_cons_zero]
      rw [writeCells, writeCells_getD_not_mem rest _ i hnd.1]
      by_cases hi : i < r.length
      · rw [if_pos hi, List.getD_eq_getElem?_getD, List.getElem?_set_self hi]
        rfl
      · rw [if_neg hi, List.getD_eq_getElem?_getD, List.getElem?_set,
          if_pos rfl, if_neg hi]
        rfl
    | succ k =>
      simp only [List.getD_cons_succ]
      rw [writeCells]
      have := ih (r.set i v) k hnd.2 (by simpa using hk)
      rw [this, List.length_set]

theorem astype_ok_toNumeric {c x : Cell} (h : astypeFloatCell c = .ok x) :
    x = toNumericCell c := by
  cases c with
  | num q => cases h; rfl
  | na => cases h; rfl
  | str s =>
    unfold astypeFloatCell at h
    dsimp only at h
    rcases hp : pyParseNumber s with _ | q
    · rw [hp] at h; exact Except.noConfusion h
    · rw [hp] at h
      cases h
      unfold toNumericCell
      dsimp only
      rw [hp]

theorem sumSkipNa_divMul (s : Rat) (hs : s ≠ 0) :
    ∀ xs : List Cell,
      sumSkipNa (xs.map (fun x => cellDivMul100 x (.num s))) = sumSkipNa xs / s * 100 := by
  intro xs
  induction xs with
  | nil => simp [sumSkipNa]
  | cons c cs ih =>
    simp only [List.map_cons, sumSkipNa, ratAdd_eq, ih]
    cases c with
    | num x =>
      simp only [cellDivMul100, ratMul_eq, ratDiv_eq]
      ring
    | str a => simp only [cellDivMul100]; ring
    | na => simp only [cellDivMul100]; ring

theorem MBTI_TYPES_length : MBTI_TYPES.length = 16 := rfl

theorem getD_eq_getElem {α : Type} (l : List α) (d : α) {n : Nat} (h : n < l.length) :
    l.getD n d = l[n] := by
  rw [List.getD_eq_getElem?_getD, List.getElem?_eq_getElem h]
  rfl

theorem option_elim_ok {o : Option Nat} {j : Nat}
    (h : o.elim (Except.error PipelineError.keyError) Except.ok = .ok j) : o = some j := by
  cases o with
  | none => exact Except.noConfusion h
  | some i => cases h; rfl

/-- Claim C2: for every row accepted by the row normalizer, the 16
output type values sum (over present values) to exactly 100, except
when the row input values (coerced to numbers) sum to zero — which
covers the all-missing row — in which case every output type value of
that row is missing. The header and the row count are preserved. -/
theorem C2_normalize_row_sums (wide out : Table) (cc : String)
    (h : normalize_rows_to_100 wide cc = .ok out) :
    out.cols = wide.cols ∧ out.rows.length = wide.rows.length ∧
    ∀ k, k < wide.rows.length →
      (sumSkipNa ((rowTypeCells wide (wide.rows.getD k [])).map toNumericCell) = 0 →
        ∀ c ∈ rowTypeCells out (out.rows.getD k []), c = Cell.na) ∧
      (sumSkipNa ((rowTypeCells wide (wide.rows.getD k [])).map toNumericCell) ≠ 0 →
        sumSkipNa (rowTypeCells out (out.rows.getD k [])) = 100) := by
  unfold normalize_rows_to_100 at h
  split at h
  · exact Except.noConfusion h
  rename_i idxs hidxs
  split at h
  · exact Except.noConfusion h
  rename_i rows2 hrows
  cases h
  have hF2 : List.Forall₂ (fun c j => wide.colIdx c = some j) MBTI_TYPES idxs :=
    (mapE_ok_forall₂ hidxs).imp (fun a b hab => option_elim_ok hab)
  have hlen16 : idxs.length = 16 := by
    have := hF2.length_eq
    simpa using this.symm
  have hnd : idxs.Nodup :=
    forall₂_nodup_right (R := fun c j => wide.colIdx c = some j)
      (fun c1 c2 j h1 h2 => colIdx_inj h1 h2) hF2 (by decide)
  have hR := mapE_ok_forall₂ hrows
  refine ⟨rfl, by simpa using hR.length_eq.symm, ?_⟩
  intro k hk
  have hrow := forall₂_getD [] [] hR k hk
  set r := wide.rows.getD k [] with hrdef
  set r2 := rows2.getD k [] with hr2def
  dsimp only at hrow
  rcases hxs : mapE astypeFloatCell (idxs.map (fun i => r.getD i .na)) with e | xs
  · rw [hxs] at hrow; exact Except.noConfusion hrow
  rw [hxs] at hrow
  dsimp only at hrow
  set s := sumSkipNa xs with hs
  set rs : Cell := if s = 0 then Cell.na else Cell.num s with hrs
  set newXs := xs.map (fun x => cellDivMul100 x rs) with hnew
  have hr2 : r2 = writeCells r (idxs.zip newXs) := by
    injection hrow with hww
    exact hww.symm
  have hFx := mapE_ok_forall₂ hxs
  have hxlen : xs.length = idxs.length := by simpa using hFx.length_eq.symm
  have hA : rowTypeCells wide r = idxs.map (fun i => r.getD i .na) := by
    refine List.ext_getElem (by simp [rowTypeCells, hlen16, MBTI_TYPES_length]) ?_
    intro n h1 h2
    simp only [rowTypeCells, List.getElem_map]
    have hcj := forall₂_getD "" 0 hF2 n (by simpa [rowTypeCells] using h1)
    rw [getD_eq_getElem _ _ (by simpa [rowTypeCells] using h1),
      getD_eq_getElem _ _ (by simpa using h2)] at hcj
    unfold Table.cellAt
    rw [hcj]
  have hB : (rowTypeCells wide r).map toNumericCell = xs := by
    rw [hA]
    refine List.ext_getElem (by simp [hxlen]) ?_
    intro n h1 h2
    have hax := forall₂_getD Cell.na Cell.na hFx n (by simpa using h1)
    rw [getD_eq_getElem _ _ (by simpa using h1), getD_eq_getElem _ _ h2] at hax
    simp only [List.getElem_map]
    have := astype_ok_toNumeric hax
    simp only [List.getElem_map] at this
    exact this.symm
  have hC : rowTypeCells ⟨wide.cols, rows2⟩ r2 = newXs := by
    refine List.ext_getElem (by simp [rowTypeCells, hnew, hxlen, hlen16, MBTI_TYPES_length]) ?_
    intro n h1 h2
    have h16 : n < 16 := by simpa [rowTypeCells] using h1
    have hnidx : n < idxs.length := by omega
    have hnxs : n < xs.length := by omega
    simp only [rowTypeCells, List.getElem_map]
    have hcj := forall₂_getD "" 0 hF2 n (by simpa using h16)
    rw [getD_eq_getElem _ _ (by simpa using h16), getD_eq_getElem _ _ hnidx] at hcj
    have hcj2 : (Table.mk wide.cols rows2).colIdx MBTI_TYPES[n] = some idxs[n] := hcj
    have hcell : (Table.mk wide.cols rows2).cellAt MBTI_TYPES[n] r2 = r2.getD idxs[n] Cell.na := by
      unfold Table.cellAt
      rw [hcj2]
    rw [hcell, hr2]
    have hzlen : n < (idxs.zip newXs).length := by
      simp only [List.length_zip, hnew, List.length_map]
      omega
    have hps : ((idxs.zip newXs).getD n (0, Cell.na)) = (idxs[n], newXs[n]) := by
      rw [getD_eq_getElem _ _ hzlen, List.getElem_zip]
    have hw := writeCells_getD_at (idxs.zip newXs) r n
      (by rw [List.map_fst_zip idxs newXs (by simp [hnew]; omega)]; exact hnd) hzlen
    rw [hps] at hw
    rw [hw]
    by_cases hib : idxs[n] < r.length
    · rw [if_pos hib]
    · rw [if_neg hib]
      have hax := forall₂_getD Cell.na Cell.na hFx n (by simpa using hnidx)
      rw [getD_eq_getElem _ _ (by simpa using hnidx), getD_eq_getElem _ _ hnxs] at hax
      simp only [List.getElem_map] at hax
      rw [List.getD_eq_default _ _ (Nat.le_of_not_lt hib)] at hax
      have hxna : xs[n] = Cell.na := by
        have := astype_ok_toNumeric hax
        simpa [toNumericCell] using this
      have hnn : newXs[n] = cellDivMul100 xs[n] rs := by
        simp [hnew]
      rw [hnn, hxna]
      cases rs <;> rfl
  refine ⟨?_, ?_⟩
  · intro hzero
    rw [hB] at hzero
    intro cl hcl
    rw [hC] at hcl
    rw [hnew] at hcl
    rcases List.mem_map.1 hcl with ⟨x, hx, rfl⟩
    have hrsna : rs = Cell.na := by
      rw [hrs, if_pos (hs ▸ hzero)]
    rw [hrsna]
    cases x <;> rfl
  · intro hnz
    rw [hB] at hnz
    rw [hC, hnew]
    have hsne : s ≠ 0 := by rw [hs]; exact hnz
    have hrsnum : rs = Cell.num s := by rw [hrs, if_neg hsne]
    rw [hrsnum]
    rw [sumSkipNa_divMul s hsne xs]
    rw [← hs]
    rw [div_self hsne]
    norm_num

/-- Claim C2 witness: on the concrete canonical table, the row of ones
(sum 16, nonzero) normalizes to a row summing to exactly 100, and the
all-missing row (coerced sum zero) comes out entirely missing. -/
theorem C2_normalize_row_sums_witness :
    (sumSkipNa ((rowTypeCells C2_input (C2_input.rows.getD 0 [])).map toNumericCell) ≠ 0 ∧
      sumSkipNa (rowTypeCells C2_expected (C2_expected.rows.getD 0 [])) = 100) ∧
    (sumSkipNa ((rowTypeCells C2_input (C2_input.rows.getD 1 [])).map toNumericCell) = 0 ∧
      ∀ c ∈ rowTypeCells C2_expected (C2_expected.rows.getD 1 []), c = Cell.na) :=
  ⟨⟨by decide,
    ((C2_normalize_row_sums C2_input C2_expected "Country" (by decide)).2.2 0
      (by decide)).2 (by decide)⟩,
   ⟨by decide,
    ((C2_normalize_row_sums C2_input C2_expected "Country" (by decide)).2.2 1
      (by decide)).1 (by decide)⟩⟩

theorem flatten_singletons {α β : Type} (l : List α) (f : α → β) :
    (l.map (fun x => [f x])).flatten = l.map f := by
  induction l with
  | nil => rfl
  | cons a as ih => simp [ih]

theorem mapE_ok_pointwise {α β ε : Type} {f : α → Except ε β} {g : α → β} :
    ∀ {l : List α}, (∀ a ∈ l, f a = .ok (g a)) → mapE f l = .ok (l.map g) := by
  intro l
  induction l with
  | nil => intro _; rfl
  | cons a as ih =>
    intro hp
    unfold mapE
    rw [hp a (List.mem_cons_self a as), ih (fun x hx => hp x (List.mem_cons_of_mem a hx))]
    rfl

theorem findIdx?_append_none {α : Type} {p : α → Bool} {l1 l2 : List α}
    (h : List.findIdx? p l1 = none) :
    List.findIdx? p (l1 ++ l2) = (List.findIdx? p l2).map (fun i => i + l1.length) := by
  rw [List.findIdx?_append, h, Option.none_or]

theorem zipWith_append_maps {α : Type} (l : List α)
    (f : α → List Cell) (g : α → Cell) :
    List.zipWith (fun r v => r ++ [v]) (l.map f) (l.map g) = l.map (fun r => f r ++ [g r]) := by
  induction l with
  | nil => rfl
  | cons a as ih => simp only [List.map_cons, List.zipWith_cons_cons, ih]

/-- Claim C5: when the reference geo fetch fails (and no upload is
given), the pipeline still returns a full geo table: every canonical
row survives the left merge (with the _join key stamped on), the
latitude/longitude/continent reference fields are all missing, and the
two derived columns — ClimateZone and Continent, the last two columns
of the result — hold "Unknown" on every row. The fetch error is
recovered to a successful result, never propagated. -/
theorem C5_fetch_failure_degrades (wn : Table) (cc : String)
    (hcols : wn.cols = cc :: MBTI_TYPES)
    (hlen : ∀ r ∈ wn.rows, r.length = 17)
    (hcc : cc ∉ GEO_FRESH) :
    geo_stage wn cc (capitalsResult none (.error ())) =
      .ok (⟨wn.cols ++ ["_join"],
             wn.rows.map (fun r => r ++ [cellJoinKey (r.getD 0 .na)])⟩,
           ⟨((wn.cols ++ ["_join"]) ++
               ["CountryName", "CapitalLatitude", "CapitalLongitude", "ContinentName"]) ++
               ["AbsLat"] ++ ["ClimateZone"] ++ ["Continent"],
             wn.rows.map (fun r => r ++ [cellJoinKey (r.getD 0 .na),
               .na, .na, .na, .na, .na, .str "Unknown", .str "Unknown"])⟩) := by
  have hcap : capitalsResult none (.error ()) = none := rfl
  rw [hcap]
  have hclen : wn.cols.length = 17 := by rw [hcols]; rfl
  have hidx0 : wn.colIdx cc = some 0 := by
    unfold Table.colIdx
    rw [hcols, List.findIdx?_cons]
    simp
  have hnone : ∀ s ∈ GEO_FRESH, List.findIdx? (fun x => decide (x = s)) wn.cols = none := by
    intro s hs
    rw [List.findIdx?_eq_none_iff]
    intro x hx
    rw [hcols] at hx
    rcases List.mem_cons.1 hx with rfl | hx2
    · exact decide_eq_false (fun heq => hcc (heq ▸ hs))
    · have hall : ∀ x ∈ MBTI_TYPES, ∀ s ∈ GEO_FRESH, decide (x = s) = false := by decide
      exact hall x hx2 s hs
  have hfresh : ∀ s ∈ GEO_FRESH, s ∉ wn.cols := by
    intro s hs hmem
    have := (List.findIdx?_eq_none_iff.1 (hnone s hs)) s hmem
    simp at this
  -- step 1: the country column and the join stamp
  have h1 : wn.getColD cc = wn.rows.map (fun r => r.getD 0 .na) := by
    unfold Table.getColD
    rw [hidx0]
  have h2 : wn.setCol "_join" (List.map cellJoinKey (wn.getColD cc)) =
      ⟨wn.cols ++ ["_join"], wn.rows.map (fun r => r ++ [cellJoinKey (r.getD 0 .na)])⟩ := by
    unfold Table.setCol
    rw [Table.colIdx_eq_none (hfresh "_join" (by decide))]
    rw [h1, List.map_map]
    congr 1
    rw [List.zipWith_map_right]
    rw [List.zipWith_same]
    rfl
  unfold geo_stage
  rw [hidx0]
  dsimp only
  rw [h2]
  -- step 2: the left merge against the empty reference frame
  have h3 : Table.mergeLeft
      ⟨wn.cols ++ ["_join"], wn.rows.map (fun r => r ++ [cellJoinKey (r.getD 0 .na)])⟩
      ⟨CAPS_COLS, []⟩ "_join" =
      ⟨(wn.cols ++ ["_join"]) ++ ["CountryName", "CapitalLatitude", "CapitalLongitude", "ContinentName"],
        wn.rows.map (fun r => (r ++ [cellJoinKey (r.getD 0 .na)]) ++ [.na, .na, .na, .na])⟩ := by
    unfold Table.mergeLeft
    have hf : CAPS_COLS.filter (fun c => decide (c ≠ "_join")) =
        ["CountryName", "CapitalLatitude", "CapitalLongitude", "ContinentName"] := by decide
    dsimp only
    rw [hf]
    congr 1
    simp only [List.filter_nil]
    simp only [List.map_cons, List.map_nil]
    rw [flatten_singletons]
    rw [List.map_map]
    rfl
  rw [h3]
  -- step 3: the capital-latitude column of the merged frame is all missing
  have hABnone : ∀ s ∈ GEO_FRESH,
      List.findIdx? (fun x => decide (x = s)) (wn.cols ++ ["_join"]) = none ∨ s = "_join" := by
    intro s hs
    by_cases hj : s = "_join"
    · exact Or.inr hj
    · refine Or.inl ?_
      rw [findIdx?_append_none (hnone s hs)]
      have : List.findIdx? (fun x => decide (x = s)) ["_join"] = none := by
        rw [List.findIdx?_eq_none_iff]
        intro x hx
        rcases List.mem_singleton.1 hx with rfl
        exact decide_eq_false (fun heq => hj heq.symm)
      rw [this]
      rfl
  have hABlen : (wn.cols ++ ["_join"]).length = 18 := by
    simp [hclen]
  have hABClen : ((wn.cols ++ ["_join"]) ++
      ["CountryName", "CapitalLatitude", "CapitalLongitude", "ContinentName"]).length = 22 := by
    simp [hclen]
  have hidxLat : List.findIdx? (fun x => decide (x = "CapitalLatitude"))
      ((wn.cols ++ ["_join"]) ++
        ["CountryName", "CapitalLatitude", "CapitalLongitude", "ContinentName"]) = some 19 := by
    rcases hABnone "CapitalLatitude" (by decide) with hAB | hAB
    · rw [findIdx?_append_none hAB]
      rw [show List.findIdx? (fun x => decide (x = "CapitalLatitude"))
        ["CountryName", "CapitalLatitude", "CapitalLongitude", "ContinentName"] = some 1 from rfl]
      rw [show ∀ m : Nat, Option.map (fun i => i + m) (some 1) = some (1 + m) from fun m => rfl]
      rw [hABlen]
    · exact absurd hAB (by decide)
  have h4 : Table.getColD
      ⟨(wn.cols ++ ["_join"]) ++ ["CountryName", "CapitalLatitude", "CapitalLongitude", "ContinentName"],
        wn.rows.map (fun r => (r ++ [cellJoinKey (r.getD 0 .na)]) ++ [.na, .na, .na, .na])⟩
      "CapitalLatitude" = wn.rows.map (fun r => Cell.na) := by
    unfold Table.getColD Table.colIdx
    rw [hidxLat]
    dsimp only
    rw [List.map_map]
    refine List.map_congr_left ?_
    intro r hr
    have hr18 : (r ++ [cellJoinKey (r.getD 0 Cell.na)]).length = 18 := by
      simp [hlen r hr]
    show ((r ++ [cellJoinKey (r.getD 0 Cell.na)]) ++ [Cell.na, Cell.na, Cell.na, Cell.na]).getD 19 Cell.na = Cell.na
    rw [List.getD_append_right _ _ _ _ (by rw [hr18]; omega)]
    rw [hr18]
    rfl
  rw [h4]
  have h5 : mapE cellAbsE (wn.rows.map (fun r => Cell.na)) =
      .ok (wn.rows.map (fun r => Cell.na)) := by
    have hp : ∀ a ∈ wn.rows.map (fun r => Cell.na), cellAbsE a = .ok ((fun c => c) a) := by
      intro a ha
      rcases List.mem_map.1 ha with ⟨r, _, rfl⟩
      rfl
    rw [mapE_ok_pointwise hp, List.map_id']
  rw [h5]
  dsimp only
  -- step 4: AbsLat is appended, all missing
  have hnoneABC : ∀ s ∈ GEO_FRESH, s ≠ "_join" → s ∉ (["CountryName", "CapitalLatitude",
      "CapitalLongitude", "ContinentName"] : List String) →
      List.findIdx? (fun x => decide (x = s))
        ((wn.cols ++ ["_join"]) ++
          ["CountryName", "CapitalLatitude", "CapitalLongitude", "ContinentName"]) = none := by
    intro s hs hj hrc
    rcases hABnone s hs with hAB | hAB
    · rw [findIdx?_append_none hAB]
      have : List.findIdx? (fun x => decide (x = s))
          ["CountryName", "CapitalLatitude", "CapitalLongitude", "ContinentName"] = none := by
        rw [List.findIdx?_eq_none_iff]
        intro x hx
        exact decide_eq_false (fun heq => hrc (heq ▸ hx))
      rw [this]
      rfl
    · exact absurd hAB hj
  have h6 : Table.setCol
      ⟨(wn.cols ++ ["_join"]) ++ ["CountryName", "CapitalLatitude", "CapitalLongitude", "ContinentName"],
        wn.rows.map (fun r => (r ++ [cellJoinKey (r.getD 0 .na)]) ++ [.na, .na, .na, .na])⟩
      "AbsLat" (wn.rows.map (fun r => Cell.na)) =
      ⟨((wn.cols ++ ["_join"]) ++ ["CountryName", "CapitalLatitude", "CapitalLongitude", "ContinentName"]) ++ ["AbsLat"],
        wn.rows.map (fun r => ((r ++ [cellJoinKey (r.getD 0 .na)]) ++ [.na, .na, .na, .na]) ++ [Cell.na])⟩ := by
    unfold Table.setCol Table.colIdx
    rw [hnoneABC "AbsLat" (by decide) (by decide) (by decide)]
    dsimp only
    congr 1
    exact zipWith_append_maps wn.rows _ _
  rw [h6]
  have hidxAbs : List.findIdx? (fun x => decide (x = "AbsLat"))
      (((wn.cols ++ ["_join"]) ++
        ["CountryName", "CapitalLatitude", "CapitalLongitude", "ContinentName"]) ++ ["AbsLat"]) = some 22 := by
    rw [findIdx?_append_none (hnoneABC "AbsLat" (by decide) (by decide) (by decide))]
    rw [show List.findIdx? (fun x => decide (x = "AbsLat")) ["AbsLat"] = some 0 from rfl]
    rw [show Option.map (fun i => i + (((wn.cols ++ ["_join"]) ++
      ["CountryName", "CapitalLatitude", "CapitalLongitude", "ContinentName"]).length)) (some 0) =
      some (0 + (((wn.cols ++ ["_join"]) ++
      ["CountryName", "CapitalLatitude", "CapitalLongitude", "ContinentName"]).length)) from rfl]
    rw [hABClen]
  have h7 : Table.getColD
      ⟨((wn.cols ++ ["_join"]) ++ ["CountryName", "CapitalLatitude", "CapitalLongitude", "ContinentName"]) ++ ["AbsLat"],
        wn.rows.map (fun r => ((r ++ [cellJoinKey (r.getD 0 .na)]) ++ [.na, .na, .na, .na]) ++ [Cell.na])⟩
      "AbsLat" = wn.rows.map (fun r => Cell.na) := by
    unfold Table.getColD Table.colIdx
    rw [hidxAbs]
    dsimp only
    rw [List.map_map]
    refine List.map_congr_left ?_
    intro r hr
    have hr22 : ((r ++ [cellJoinKey (r.getD 0 Cell.na)]) ++ [Cell.na, Cell.na, Cell.na, Cell.na]).length = 22 := by
      simp [hlen r hr]
    show (((r ++ [cellJoinKey (r.getD 0 Cell.na)]) ++ [Cell.na, Cell.na, Cell.na, Cell.na]) ++ [Cell.na]).getD 22 Cell.na = Cell.na
    rw [List.getD_append_right _ _ _ _ (by rw [hr22])]
    rw [hr22]
    rfl
  rw [h7]
  have h8 : List.map classifyCell (wn.rows.map (fun r => Cell.na)) =
      wn.rows.map (fun r => Cell.str "Unknown") := by
    rw [List.map_map]
    rfl
  rw [h8]
  -- step 5: ClimateZone is appended, all Unknown
  have hnoneAbsCols : ∀ s ∈ GEO_FRESH, s ≠ "_join" → s ∉ (["CountryName", "CapitalLatitude",
      "CapitalLongitude", "ContinentName"] : List String) → s ≠ "AbsLat" →
      List.findIdx? (fun x => decide (x = s))
        (((wn.cols ++ ["_join"]) ++
          ["CountryName", "CapitalLatitude", "CapitalLongitude", "ContinentName"]) ++ ["AbsLat"]) = none := by
    intro s hs hj hrc habs
    rw [findIdx?_append_none (hnoneABC s hs hj hrc)]
    have : List.findIdx? (fun x => decide (x = s)) ["AbsLat"] = none := by
      rw [List.findIdx?_eq_none_iff]
      intro x hx
      rcases List.mem_singleton.1 hx with rfl
      exact decide_eq_false (fun heq => habs heq.symm)
    rw [this]
    rfl
  have h9 : Table.setCol
      ⟨((wn.cols ++ ["_join"]) ++ ["CountryName", "CapitalLatitude", "CapitalLongitude", "ContinentName"]) ++ ["AbsLat"],
        wn.rows.map (fun r => ((r ++ [cellJoinKey (r.getD 0 .na)]) ++ [.na, .na, .na, .na]) ++ [Cell.na])⟩
      "ClimateZone" (wn.rows.map (fun r => Cell.str "Unknown")) =
      ⟨(((wn.cols ++ ["_join"]) ++ ["CountryName", "CapitalLatitude", "CapitalLongitude", "ContinentName"]) ++ ["AbsLat"]) ++ ["ClimateZone"],
        wn.rows.map (fun r => (((r ++ [cellJoinKey (r.getD 0 .na)]) ++ [.na, .na, .na, .na]) ++ [Cell.na]) ++ [Cell.str "Unknown"])⟩ := by
    unfold Table.setCol Table.colIdx
    rw [hnoneAbsCols "ClimateZone" (by decide) (by decide) (by decide) (by decide)]
    dsimp only
    congr 1
    exact zipWith_append_maps wn.rows _ _
  rw [h9]
  have h10 : List.map (fun x : List Cell => Cell.str "Unknown")
      (wn.rows.map (fun r => (((r ++ [cellJoinKey (r.getD 0 .na)]) ++ [.na, .na, .na, .na]) ++ [Cell.na]) ++ [Cell.str "Unknown"])) =
      wn.rows.map (fun r => Cell.str "Unknown") := by
    rw [List.map_map]
    rfl
  rw [h10]
  -- step 6: Continent is appended, all Unknown, and fillna leaves it be
  have hnoneCZCols :
      List.findIdx? (fun x => decide (x = "Continent"))
        ((((wn.cols ++ ["_join"]) ++
          ["CountryName", "CapitalLatitude", "CapitalLongitude", "ContinentName"]) ++ ["AbsLat"]) ++ ["ClimateZone"]) = none := by
    rw [findIdx?_append_none (hnoneAbsCols "Continent" (by decide) (by decide) (by decide) (by decide))]
    rfl
  have h11 : Table.setCol
      ⟨(((wn.cols ++ ["_join"]) ++ ["CountryName", "CapitalLatitude", "CapitalLongitude", "ContinentName"]) ++ ["AbsLat"]) ++ ["ClimateZone"],
        wn.rows.map (fun r => (((r ++ [cellJoinKey (r.getD 0 .na)]) ++ [.na, .na, .na, .na]) ++ [Cell.na]) ++ [Cell.str "Unknown"])⟩
      "Continent" (wn.rows.map (fun r => Cell.str "Unknown")) =
      ⟨((((wn.cols ++ ["_join"]) ++ ["CountryName", "CapitalLatitude", "CapitalLongitude", "ContinentName"]) ++ ["AbsLat"]) ++ ["ClimateZone"]) ++ ["Continent"],
        wn.rows.map (fun r => ((((r ++ [cellJoinKey (r.getD 0 .na)]) ++ [.na, .na, .na, .na]) ++ [Cell.na]) ++ [Cell.str "Unknown"]) ++ [Cell.str "Unknown"])⟩ := by
    unfold Table.setCol Table.colIdx
    rw [hnoneCZCols]
    dsimp only
    congr 1
    exact zipWith_append_maps wn.rows _ _
  rw [h11]
  have hidxCont : List.findIdx? (fun x => decide (x = "Continent"))
      (((((wn.cols ++ ["_join"]) ++
        ["CountryName", "CapitalLatitude", "CapitalLongitude", "ContinentName"]) ++ ["AbsLat"]) ++ ["ClimateZone"]) ++ ["Continent"]) = some 24 := by
    rw [findIdx?_append_none hnoneCZCols]
    rw [show List.findIdx? (fun x => decide (x = "Continent")) ["Continent"] = some 0 from rfl]
    rw [show ∀ m : Nat, Option.map (fun i => i + m) (some 0) = some (0 + m) from fun m => rfl]
    simp [hclen]
  have h12 : Table.mapColByName
      ⟨((((wn.cols ++ ["_join"]) ++ ["CountryName", "CapitalLatitude", "CapitalLongitude", "ContinentName"]) ++ ["AbsLat"]) ++ ["ClimateZone"]) ++ ["Continent"],
        wn.rows.map (fun r => ((((r ++ [cellJoinKey (r.getD 0 .na)]) ++ [.na, .na, .na, .na]) ++ [Cell.na]) ++ [Cell.str "Unknown"]) ++ [Cell.str "Unknown"])⟩
      "Continent" fillUnknown =
      ⟨((((wn.cols ++ ["_join"]) ++ ["CountryName", "CapitalLatitude", "CapitalLongitude", "ContinentName"]) ++ ["AbsLat"]) ++ ["ClimateZone"]) ++ ["Continent"],
        wn.rows.map (fun r => ((((r ++ [cellJoinKey (r.getD 0 .na)]) ++ [.na, .na, .na, .na]) ++ [Cell.na]) ++ [Cell.str "Unknown"]) ++ [Cell.str "Unknown"])⟩ := by
    unfold Table.mapColByName Table.colIdx
    rw [hidxCont]
    dsimp only
    congr 1
    rw [List.map_map]
    refine List.map_congr_left ?_
    intro r hr
    have hr24 : ((((r ++ [cellJoinKey (r.getD 0 Cell.na)]) ++ [Cell.na, Cell.na, Cell.na, Cell.na]) ++ [Cell.na]) ++ [Cell.str "Unknown"]).length = 24 := by
      simp [hlen r hr]
    show (((((r ++ [cellJoinKey (r.getD 0 Cell.na)]) ++ [Cell.na, Cell.na, Cell.na, Cell.na]) ++ [Cell.na]) ++ [Cell.str "Unknown"]) ++ [Cell.str "Unknown"]).set 24
        (fillUnknown ((((((r ++ [cellJoinKey (r.getD 0 Cell.na)]) ++ [Cell.na, Cell.na, Cell.na, Cell.na]) ++ [Cell.na]) ++ [Cell.str "Unknown"]) ++ [Cell.str "Unknown"]).getD 24 Cell.na)) =
      ((((r ++ [cellJoinKey (r.getD 0 Cell.na)]) ++ [Cell.na, Cell.na, Cell.na, Cell.na]) ++ [Cell.na]) ++ [Cell.str "Unknown"]) ++ [Cell.str "Unknown"]
    rw [List.getD_append_right _ _ _ _ (by rw [hr24]), hr24]
    rw [List.set_append]
    rw [if_neg (by rw [hr24]; omega), hr24]
    rfl
  rw [h12]
  -- final shape normalization
  simp only [List.append_assoc, List.singleton_append, List.cons_append, List.nil_append]


/-- Claim C5 witness: the concrete one-row canonical table survives a
failed fetch with ClimateZone and Continent both "Unknown". -/
theorem C5_fetch_failure_degrades_witness :
    geo_stage C5_input "Country" (capitalsResult none (.error ())) =
      .ok (⟨C5_input.cols ++ ["_join"],
             C5_input.rows.map (fun r => r ++ [cellJoinKey (r.getD 0 .na)])⟩,
           ⟨((C5_input.cols ++ ["_join"]) ++
               ["CountryName", "CapitalLatitude", "CapitalLongitude", "ContinentName"]) ++
               ["AbsLat"] ++ ["ClimateZone"] ++ ["Continent"],
             C5_input.rows.map (fun r => r ++ [cellJoinKey (r.getD 0 .na),
               .na, .na, .na, .na, .na, .str "Unknown", .str "Unknown"])⟩) :=
  C5_fetch_failure_degrades C5_input "Country" (by decide) (by decide) (by decide)

-- ---------------------------------------------------------------------
-- Infrastructure for the row-order claim
-- ---------------------------------------------------------------------

theorem char_toNat_inj {a b : Char} (h : a.toNat = b.toNat) : a = b := Char.ext (UInt32.ext h)

theorem charListLe_total : ∀ a b : List Char, charListLe a b = true ∨ charListLe b a = true := by
  intro a
  induction a with
  | nil => intro b; exact Or.inl rfl
  | cons x xs ih =>
    intro b
    cases b with
    | nil => exact Or.inr rfl
    | cons y ys =>
      by_cases hxy : x = y
      · subst hxy
        rcases ih ys with h | h
        · exact Or.inl (by rw [charListLe, if_pos rfl]; exact h)
        · exact Or.inr (by rw [charListLe, if_pos rfl]; exact h)
      · rcases Nat.lt_or_ge x.toNat y.toNat with h | h
        · refine Or.inl ?_
          rw [charListLe, if_neg hxy]
          exact decide_eq_true h
        · rcases Nat.lt_or_ge y.toNat x.toNat with h2 | h2
          · refine Or.inr ?_
            rw [charListLe, if_neg (fun hyx => hxy hyx.symm)]
            exact decide_eq_true h2
          · exact absurd (char_toNat_inj (Nat.le_antisymm h2 h)) hxy

theorem charListLe_trans : ∀ a b c : List Char,
    charListLe a b = true → charListLe b c = true → charListLe a c = true := by
  intro a
  induction a with
  | nil => intro b c _ _; rfl
  | cons x xs ih =>
    intro b c hab hbc
    cases b with
    | nil => exact absurd hab (by rw [charListLe]; exact Bool.false_ne_true)
    | cons y ys =>
      cases c with
      | nil => exact absurd hbc (by rw [charListLe]; exact Bool.false_ne_true)
      | cons z zs =>
        rw [charListLe] at hab hbc ⊢
        by_cases hxy : x = y
        · subst hxy
          rw [if_pos rfl] at hab
          by_cases hyz : x = z
          · subst hyz
            rw [if_pos rfl] at hbc
            rw [if_pos rfl]
            exact ih ys zs hab hbc
          · rw [if_neg hyz] at hbc
            rw [if_neg hyz]
            exact hbc
        · rw [if_neg hxy] at hab
          by_cases hyz : y = z
          · subst hyz
            rw [if_neg hxy]
            exact hab
          · rw [if_neg hyz] at hbc
            have h1 := of_decide_eq_true hab
            have h2 := of_decide_eq_true hbc
            have hxz : x ≠ z := fun hx => by
              subst hx
              exact absurd rfl (Nat.ne_of_lt (Nat.lt_trans h1 h2))
            rw [if_neg hxz]
            exact decide_eq_true (Nat.lt_trans h1 h2)

theorem cellLe_total : ∀ a b : Cell, cellLe a b = true ∨ cellLe b a = true := by
  intro a b
  cases a <;> cases b
  · exact charListLe_total _ _
  · exact Or.inr rfl
  · exact Or.inr rfl
  · exact Or.inl rfl
  · rename_i p q
    rcases le_total p q with h | h
    · exact Or.inl (decide_eq_true h)
    · exact Or.inr (decide_eq_true h)
  · exact Or.inr rfl
  · exact Or.inl rfl
  · exact Or.inl rfl
  · exact Or.inl rfl

theorem cellLe_trans : ∀ a b c : Cell,
    cellLe a b = true → cellLe b c = true → cellLe a c = true := by
  intro a b c hab hbc
  cases a <;> cases b <;> cases c <;>
    first
    | rfl
    | exact absurd hab Bool.false_ne_true
    | exact absurd hbc Bool.false_ne_true
    | exact charListLe_trans _ _ _ hab hbc
    | exact decide_eq_true (le_trans (of_decide_eq_true hab) (of_decide_eq_true hbc))

instance : IsTotal Cell cellLeP := ⟨cellLe_total⟩

instance : IsTrans Cell cellLeP := ⟨cellLe_trans⟩

theorem Table.mapColByName_cols (t : Table) (c : String) (f : Cell → Cell) :
    (t.mapColByName c f).cols = t.cols := by
  unfold Table.mapColByName
  split <;> rfl

theorem addMissingTypes_col0 : ∀ (l : List String) (w : Table),
    (∀ r ∈ w.rows, r ≠ []) →
    ((l.foldl (fun w ty => if ty ∈ w.cols then w else w.appendConstCol ty .na) w).rows.map
        (fun r => r.getD 0 .na) = w.rows.map (fun r => r.getD 0 .na)) ∧
    (∀ r ∈ (l.foldl (fun w ty => if ty ∈ w.cols then w else w.appendConstCol ty .na) w).rows,
      r ≠ []) := by
  intro l
  induction l with
  | nil => intro w h; exact ⟨rfl, h⟩
  | cons ty rest ih =>
    intro w h
    rw [List.foldl_cons]
    by_cases hmem : ty ∈ w.cols
    · rw [if_pos hmem]; exact ih w h
    · rw [if_neg hmem]
      have h2 : ∀ r ∈ (w.appendConstCol ty .na).rows, r ≠ [] := by
        intro r hr
        rcases List.mem_map.1 hr with ⟨r0, _, rfl⟩
        simp
      rcases ih (w.appendConstCol ty .na) h2 with ⟨hc, hn⟩
      refine ⟨?_, hn⟩
      rw [hc]
      unfold Table.appendConstCol
      dsimp only
      rw [List.map_map]
      refine List.map_congr_left ?_
      intro r hr
      show (r ++ [Cell.na]).getD 0 .na = r.getD 0 .na
      rw [List.getD_append _ _ _ _ (List.length_pos.2 (h r hr))]

theorem addMissingTypes_cols : ∀ (l : List String) (w : Table),
    ∃ e, (l.foldl (fun w ty => if ty ∈ w.cols then w else w.appendConstCol ty .na) w).cols =
        w.cols ++ e ∧ ∀ x ∈ e, x ∈ l := by
  intro l
  induction l with
  | nil => intro w; exact ⟨[], by simp⟩
  | cons ty rest ih =>
    intro w
    rw [List.foldl_cons]
    by_cases hmem : ty ∈ w.cols
    · rw [if_pos hmem]
      rcases ih w with ⟨e, he, hsub⟩
      exact ⟨e, he, fun x hx => List.mem_cons_of_mem ty (hsub x hx)⟩
    · rw [if_neg hmem]
      rcases ih (w.appendConstCol ty .na) with ⟨e, he, hsub⟩
      refine ⟨ty :: e, ?_, ?_⟩
      · rw [he]
        unfold Table.appendConstCol
        rw [List.append_assoc]
        rfl
      · intro x hx
        rcases List.mem_cons.1 hx with rfl | hx2
        · exact List.mem_cons_self x rest
        · exact List.mem_cons_of_mem ty (hsub x hx2)

theorem coerceTypeCols_cols : ∀ (l : List String) (w : Table),
    (l.foldl (fun w ty => w.mapColByName ty toNumericCell) w).cols = w.cols := by
  intro l
  induction l with
  | nil => intro w; rfl
  | cons ty rest ih =>
    intro w
    rw [List.foldl_cons, ih, Table.mapColByName_cols]

theorem coerceTypeCols_col0 : ∀ (l : List String) (w : Table),
    (∀ ty ∈ l, ∀ d, w.cols.getD 0 d ≠ ty) → w.cols ≠ [] →
    (l.foldl (fun w ty => w.mapColByName ty toNumericCell) w).rows.map
        (fun r => r.getD 0 .na) = w.rows.map (fun r => r.getD 0 .na) := by
  intro l
  induction l with
  | nil => intro w _ _; rfl
  | cons ty rest ih =>
    intro w hne hcne
    rw [List.foldl_cons]
    have hcols : (w.mapColByName ty toNumericCell).cols = w.cols := Table.mapColByName_cols w ty _
    rw [ih (w.mapColByName ty toNumericCell)
      (by rw [hcols]; exact fun t ht d => hne t (List.mem_cons_of_mem ty ht) d)
      (by rw [hcols]; exact hcne)]
    unfold Table.mapColByName
    rcases hidx : w.colIdx ty with _ | i
    · rfl
    · have hi0 : i ≠ 0 := by
        rintro rfl
        exact hne ty (List.mem_cons_self ty rest) "" ((colIdx_some_spec hidx).2 "")
      dsimp only
      rw [List.map_map]
      refine List.map_congr_left ?_
      intro r hr
      show (r.set i (toNumericCell (r.getD i .na))).getD 0 .na = r.getD 0 .na
      rw [List.getD_eq_getElem?_getD, List.getElem?_set_ne hi0, ← List.getD_eq_getElem?_getD]

theorem mapE_cons_ok {α β ε : Type} {f : α → Except ε β} {a : α} {l : List α} {bs : List β}
    (h : mapE f (a :: l) = .ok bs) :
    ∃ b bs2, bs = b :: bs2 ∧ f a = .ok b ∧ mapE f l = .ok bs2 := by
  have hF := mapE_ok_forall₂ h
  cases hF with
  | cons hab htl =>
    rename_i b bs2
    refine ⟨b, bs2, rfl, hab, ?_⟩
    -- rebuild the tail equation from the Forall₂ by re-running mapE
    clear h hab
    induction htl with
    | nil => rfl
    | cons hab2 htl2 ih =>
      unfold mapE
      rw [hab2, ih]

theorem select_ok_parts {t u : Table} {cs : List String}
    (h : t.select cs = .ok u) :
    ∃ idxs, mapE (fun c => (t.colIdx c).elim (Except.error PipelineError.keyError) Except.ok) cs =
        .ok idxs ∧
      u = ⟨cs, t.rows.map (fun r => idxs.map (fun i => r.getD i .na))⟩ := by
  unfold Table.select at h
  split at h
  · exact Except.noConfusion h
  · rename_i idxs hidxs
    cases h
    exact ⟨idxs, hidxs, rfl⟩

theorem MBTI_upper_fix : ∀ s ∈ MBTI_TYPES, pyStrip (pyUpper s) = s := by decide

theorem pivot_select_sorted (lng u : Table) (cc : String)
    (hsel : (addMissingTypes (pivotMean lng cc)).select (cc :: MBTI_TYPES) = .ok u) :
    List.Pairwise cellLeP (u.getColD cc) := by
  rcases select_ok_parts hsel with ⟨idxs2, hidxs2, hu⟩
  rcases mapE_cons_ok hidxs2 with ⟨i2, rest2, hids2, hfc2, _⟩
  have hi2 : i2 = 0 := by
    have hic := option_elim_ok hfc2
    unfold Table.colIdx addMissingTypes at hic
    rcases addMissingTypes_cols MBTI_TYPES (pivotMean lng cc) with ⟨e, he, _⟩
    rw [he] at hic
    have htys : ∃ tys, (pivotMean lng cc).cols = cc :: tys := ⟨_, rfl⟩
    rcases htys with ⟨tys, htys⟩
    rw [htys, List.cons_append, List.findIdx?_cons,
      if_pos (show decide (cc = cc) = true from decide_eq_true rfl)] at hic
    exact (Option.some_injective _ hic).symm
  have hgc : u.getColD cc =
      (addMissingTypes (pivotMean lng cc)).rows.map (fun r => r.getD 0 .na) := by
    rw [hu]
    unfold Table.getColD Table.colIdx
    dsimp only
    rw [List.findIdx?_cons]
    rw [if_pos (show decide (cc = cc) = true from decide_eq_true rfl)]
    dsimp only
    rw [List.map_map]
    refine List.map_congr_left ?_
    intro r hr
    rw [hids2, hi2]
    rfl
  rw [hgc]
  have hpne : ∀ r ∈ (pivotMean lng cc).rows, r ≠ [] := by
    intro r hr
    unfold pivotMean at hr
    dsimp only at hr
    rcases List.mem_map.1 hr with ⟨k, _, rfl⟩
    exact List.cons_ne_nil _ _
  unfold addMissingTypes
  rw [(addMissingTypes_col0 MBTI_TYPES _ hpne).1]
  have hrows : (pivotMean lng cc).rows.map (fun r => r.getD 0 .na) =
      List.insertionSort cellLeP (((lng.rows.filter (fun r =>
        decide (lng.cellAt cc r ≠ .na ∧ lng.cellAt "Type" r ≠ .na ∧
          lng.cellAt "Value" r ≠ .na))).map (fun r => lng.cellAt cc r)).dedup) := by
    unfold pivotMean
    dsimp only
    rw [List.map_map]
    refine (List.map_congr_left ?_).trans (List.map_id' _)
    intro a _
    rfl
  rw [hrows]
  exact List.sorted_insertionSort cellLeP _

/-- Claim C10: when reconciliation succeeds through the wide branch,
the output rows keep the original input row order (witnessed by the
country column being carried over unchanged, row for row); when it
succeeds through the long branch, the output rows come out sorted
ascending by the country key (the pivot sorts its group keys), whatever
order the countries appeared in. The hypotheses restrict to inputs on
which the embedding is exact: distinct headers, a country header that
is not itself a type code or a reshaped-column name, and string (or
missing) country keys. -/
theorem C10_row_order (t w : Table) (cc : String)
    (hnd : t.stripCols.cols.Nodup)
    (h : to_wide_by_country t = .ok (w, cc)) :
    (4 ≤ (mbtiColsPresent t.stripCols.cols).length →
      pyStrip (pyUpper cc) ∉ MBTI_TYPES →
      w.getColD cc = t.stripCols.getColD cc) ∧
    ((mbtiColsPresent t.stripCols.cols).length < 4 →
      cc ≠ "Type" → cc ≠ "Value" →
      (∀ r ∈ t.rows, cellIsStrOrNa (t.stripCols.cellAt cc r) = true) →
      List.Pairwise cellLeP (w.getColD cc)) := by
  simp only [to_wide_by_country] at h
  rcases hdet : auto_detect_country_col t.stripCols with _ | cc2
  · rw [hdet] at h; exact Except.noConfusion h
  rw [hdet] at h
  dsimp only at h
  by_cases hcc2 : cc2 = ""
  · rw [if_pos hcc2] at h; exact Except.noConfusion h
  rw [if_neg hcc2] at h
  constructor
  · -- wide branch
    intro hw hccU
    rw [if_pos hw] at h
    unfold wideBranch at h
    rcases hsel1 : t.stripCols.select (cc2 :: mbtiColsPresent t.stripCols.cols) with e | w1
    · rw [hsel1] at h; exact Except.noConfusion h
    rw [hsel1] at h
    dsimp only at h
    rcases hsel2 : ((coerceTypeCols (addMissingTypes (w1.renameAll fun c => pyStrip (pyUpper c)))).select
        (cc2 :: MBTI_TYPES)) with e | w2
    · rw [hsel2] at h; exact Except.noConfusion h
    rw [hsel2] at h
    cases h
    -- structure of the first selection
    rcases select_ok_parts hsel1 with ⟨idxs1, hidxs1, hw1⟩
    rcases mapE_cons_ok hidxs1 with ⟨i1, rest1, hids1, hfc1, _⟩
    have hicc : t.stripCols.colIdx cc = some i1 := option_elim_ok hfc1
    -- column structure after rename and synthesis
    rcases addMissingTypes_cols MBTI_TYPES (w1.renameAll fun c => pyStrip (pyUpper c)) with
      ⟨e1, hecols, hesub⟩
    have hw1cols : w1.cols = cc :: mbtiColsPresent t.stripCols.cols := Table.select_ok_cols hsel1
    have hw3cols : (addMissingTypes (w1.renameAll fun c => pyStrip (pyUpper c))).cols =
        pyStrip (pyUpper cc) :: ((mbtiColsPresent t.stripCols.cols).map
          (fun c => pyStrip (pyUpper c)) ++ e1) := by
      unfold addMissingTypes
      rw [hecols]
      unfold Table.renameAll
      rw [hw1cols]
      rfl
    -- the second selection reads the country column at position 0
    rcases select_ok_parts hsel2 with ⟨idxs2, hidxs2, hw2⟩
    rcases mapE_cons_ok hidxs2 with ⟨i2, rest2, hids2, hfc2, _⟩
    have hicc2 : (coerceTypeCols (addMissingTypes (w1.renameAll fun c =>
        pyStrip (pyUpper c)))).colIdx cc = some i2 := option_elim_ok hfc2
    have hcols4 : (coerceTypeCols (addMissingTypes (w1.renameAll fun c =>
        pyStrip (pyUpper c)))).cols =
        pyStrip (pyUpper cc) :: ((mbtiColsPresent t.stripCols.cols).map
          (fun c => pyStrip (pyUpper c)) ++ e1) := by
      unfold coerceTypeCols
      rw [coerceTypeCols_cols, hw3cols]
    have hi2 : i2 = 0 := by
      rcases colIdx_some_spec hicc2 with ⟨hlt, hget⟩
      rw [hcols4] at hlt hget
      cases i2 with
      | zero => rfl
      | succ k =>
        exfalso
        have hk : k < ((mbtiColsPresent t.stripCols.cols).map
            (fun c => pyStrip (pyUpper c)) ++ e1).length := by
          simpa using hlt
        have hmem : cc ∈ (mbtiColsPresent t.stripCols.cols).map
            (fun c => pyStrip (pyUpper c)) ++ e1 := by
          have := hget ""
          rw [List.getD_cons_succ] at this
          rw [← this]
          rw [getD_eq_getElem _ _ hk]
          exact List.getElem_mem hk
        have hccMBTI : cc ∈ MBTI_TYPES := by
          rcases List.mem_append.1 hmem with hm | hm
          · rcases List.mem_map.1 hm with ⟨c0, hc0, hfc0⟩
            have := List.mem_filter.1 hc0
            rw [← hfc0]
            exact of_decide_eq_true this.2
          · exact of_decide_eq_true (by
              have := hesub cc hm
              exact decide_eq_true this)
        exact hccU (by rw [MBTI_upper_fix cc hccMBTI]; exact hccMBTI)
    -- now walk the country column back to the input
    have hgc : w.getColD cc =
        (coerceTypeCols (addMissingTypes (w1.renameAll fun c =>
          pyStrip (pyUpper c)))).rows.map (fun r => r.getD 0 .na) := by
      rw [hw2]
      unfold Table.getColD Table.colIdx
      dsimp only
      rw [List.findIdx?_cons]
      rw [if_pos (show decide (cc = cc) = true from decide_eq_true rfl)]
      dsimp only
      rw [List.map_map]
      refine List.map_congr_left ?_
      intro r hr
      rw [hids2, hi2]
      rfl
    rw [hgc]
    have hne3 : ∀ r ∈ (addMissingTypes (w1.renameAll fun c => pyStrip (pyUpper c))).rows, r ≠ [] := by
      have hb : ∀ r ∈ (w1.renameAll fun c => pyStrip (pyUpper c)).rows, r ≠ [] := by
        intro r hr
        unfold Table.renameAll at hr
        dsimp only at hr
        rw [hw1] at hr
        dsimp only at hr
        rcases List.mem_map.1 hr with ⟨r0, _, rfl⟩
        rw [hids1]
        simp
      exact (addMissingTypes_col0 MBTI_TYPES _ hb).2
    have hcoe := coerceTypeCols_col0 MBTI_TYPES
      (addMissingTypes (w1.renameAll fun c => pyStrip (pyUpper c)))
      (by
        intro ty hty d
        rw [hw3cols]
        intro heq
        rw [List.getD_cons_zero] at heq
        exact hccU (heq ▸ hty))
      (by rw [hw3cols]; exact List.cons_ne_nil _ _)
    unfold coerceTypeCols at hcoe ⊢
    rw [hcoe]
    have hb2 : ∀ r ∈ (w1.renameAll fun c => pyStrip (pyUpper c)).rows, r ≠ [] := by
      intro r hr
      unfold Table.renameAll at hr
      dsimp only at hr
      rw [hw1] at hr
      dsimp only at hr
      rcases List.mem_map.1 hr with ⟨r0, _, rfl⟩
      rw [hids1]
      simp
    unfold addMissingTypes
    rw [(addMissingTypes_col0 MBTI_TYPES _ hb2).1]
    unfold Table.renameAll
    dsimp only
    rw [hw1]
    dsimp only
    rw [List.map_map]
    unfold Table.getColD
    rw [hicc]
    refine List.map_congr_left ?_
    intro r hr
    rw [hids1]
    rfl
  · -- long branch
    intro hnw hcT hcV hstr
    rw [if_neg (by omega)] at h
    rcases h1 : typeColOf t.stripCols.cols with _ | tc <;> rw [h1] at h
    · exact Except.noConfusion h
    rcases h2 : valueColOf t.stripCols.cols with _ | vc <;> rw [h2] at h
    · exact Except.noConfusion h
    dsimp only at h
    unfold longBranch at h
    split at h
    · exact Except.noConfusion h
    · rename_i sel hsel1
      dsimp only at h
      split at h
      · exact Except.noConfusion h
      · rename_i w2 hsel2
        cases h
        exact pivot_select_sorted _ _ cc hsel2

/-- Claim C10 witness: the wide-shape table (caseless country header, so
the wide branch succeeds) keeps its original row order B, A; the
long-shape table with countries Y, X comes out sorted X, Y. -/
theorem C10_row_order_witness :
    C10_output_wide.getColD "국가" = C10_input_wide.stripCols.getColD "국가" ∧
    List.Pairwise cellLeP (C10_output_long.getColD "Country") :=
  ⟨(C10_row_order C10_input_wide C10_output_wide "국가" (by decide) (by decide)).1
      (by decide) (by decide),
   (C10_row_order C10_input_long C10_output_long "Country" (by decide) (by decide)).2
      (by decide) (by decide) (by decide) (by decide)⟩

/-- Reading anywhere in an all-NaN replicate gives NaN. -/
theorem getD_replicate_na : ∀ (n i : Nat), (List.replicate n Cell.na).getD i Cell.na = Cell.na := by
  intro n
  induction n with
  | zero => intro i; cases i <;> rfl
  | succ m ih =>
    intro i
    cases i with
    | zero => rfl
    | succ j =>
      rw [List.replicate_succ, List.getD_cons_succ]
      exact ih j

/-- Full structure of the missing-type synthesis loop: it appends (in
list order) exactly the types absent from the frame, as all-NaN columns,
extending every row by that many NaN cells. -/
theorem addMissing_struct : ∀ (l : List String), l.Nodup → ∀ (w : Table),
    (l.foldl (fun w ty => if ty ∈ w.cols then w else w.appendConstCol ty .na) w).cols =
      w.cols ++ l.filter (fun ty => decide (ty ∉ w.cols)) ∧
    (l.foldl (fun w ty => if ty ∈ w.cols then w else w.appendConstCol ty .na) w).rows =
      w.rows.map (fun r =>
        r ++ List.replicate (l.filter (fun ty => decide (ty ∉ w.cols))).length Cell.na) := by
  intro l
  induction l with
  | nil =>
    intro _ w
    constructor
    · simp
    · simp
  | cons ty rest ih =>
    intro hnd w
    rcases List.nodup_cons.1 hnd with ⟨hty, hnd2⟩
    rw [List.foldl_cons]
    by_cases hmem : ty ∈ w.cols
    · rw [if_pos hmem]
      have hfil : (ty :: rest).filter (fun x => decide (x ∉ w.cols)) =
          rest.filter (fun x => decide (x ∉ w.cols)) := by
        rw [List.filter_cons, if_neg (by simp [hmem])]
      rw [hfil]
      exact ih hnd2 w
    · rw [if_neg hmem]
      rcases ih hnd2 (w.appendConstCol ty .na) with ⟨hc, hr⟩
      have hcols2 : (w.appendConstCol ty .na).cols = w.cols ++ [ty] := rfl
      have hrows2 : (w.appendConstCol ty .na).rows = w.rows.map (fun r => r ++ [Cell.na]) := rfl
      have hfil2 : rest.filter (fun x => decide (x ∉ (w.appendConstCol ty .na).cols)) =
          rest.filter (fun x => decide (x ∉ w.cols)) := by
        refine List.filter_congr ?_
        intro x hx
        refine decide_eq_decide.2 ?_
        rw [hcols2]
        constructor
        · intro hn hxc
          exact hn (List.mem_append_left _ hxc)
        · intro hn hxc
          rcases List.mem_append.1 hxc with hcase | hcase
          · exact hn hcase
          · exact hty ((List.mem_singleton.1 hcase) ▸ hx)
      have hfilcons : (ty :: rest).filter (fun x => decide (x ∉ w.cols)) =
          ty :: rest.filter (fun x => decide (x ∉ w.cols)) := by
        rw [List.filter_cons, if_pos (by simp [hmem])]
      constructor
      · rw [hc, hfil2, hcols2, hfilcons, List.append_assoc]
        rfl
      · rw [hr, hfil2, hrows2, List.map_map, hfilcons]
        refine List.map_congr_left ?_
        intro r _
        show (r ++ [Cell.na]) ++
            List.replicate (rest.filter (fun x => decide (x ∉ w.cols))).length Cell.na =
          r ++ List.replicate (ty :: rest.filter (fun x => decide (x ∉ w.cols))).length Cell.na
        rw [List.append_assoc, List.length_cons, List.replicate_succ]
        rfl

/-- Reading one reordered output row: under the header
`cc :: (tys ++ E)` the cell found under a canonical type label `T` is
`F T` — the stored aggregate for the pivot's own type columns `tys`,
and NaN (which `F` also gives, by hypothesis) for the synthesized
columns `E`. -/
theorem onerow_read (cc : String) (tys E : List String) (F : String → Cell) (k : Cell)
    (hccM : cc ∉ MBTI_TYPES) (hFE : ∀ x ∈ E, F x = Cell.na) :
    ∀ (T : String) (j : Nat), T ∈ MBTI_TYPES →
      List.findIdx? (fun x => decide (x = T)) ((cc :: tys) ++ E) = some j →
      ((k :: tys.map F) ++ List.replicate E.length Cell.na).getD j Cell.na = F T := by
  intro T j hTM hfind
  rw [List.cons_append] at hfind
  rcases findIdx?_some_spec hfind with ⟨_, hjlt, hjget⟩
  simp only [Nat.sub_zero] at hjlt hjget
  cases j with
  | zero =>
    exfalso
    have h0 := hjget ""
    rw [List.getD_cons_zero] at h0
    have hceq : cc = T := of_decide_eq_true h0
    exact hccM (by rw [hceq]; exact hTM)
  | succ m =>
    have hm : m < tys.length + E.length := by
      rw [List.length_cons, List.length_append] at hjlt
      omega
    have hTm : (tys ++ E).getD m "" = T := by
      have h1 := of_decide_eq_true (hjget "")
      rw [List.getD_cons_succ] at h1
      exact h1
    rw [List.cons_append, List.getD_cons_succ]
    by_cases hmty : m < tys.length
    · have hTin : tys.getD m "" = T := by
        rw [List.getD_append _ _ _ _ hmty] at hTm
        exact hTm
      have hmv : m < (tys.map F).length := by
        rw [List.length_map]
        exact hmty
      rw [List.getD_append _ _ _ _ hmv, getD_eq_getElem _ _ hmv, List.getElem_map]
      rw [show tys[m] = T from ((getD_eq_getElem tys "" hmty).symm.trans hTin)]
    · push_neg at hmty
      have hmv : (tys.map F).length ≤ m := by
        rw [List.length_map]
        exact hmty
      rw [List.getD_append_right _ _ _ _ hmv, getD_replicate_na]
      have hmE : m - tys.length < E.length := by omega
      have hTm2 : E.getD (m - tys.length) "" = T := by
        rw [List.getD_append_right _ _ _ _ hmty] at hTm
        exact hTm
      have hTE : T ∈ E := by
        rw [getD_eq_getElem _ _ hmE] at hTm2
        exact hTm2 ▸ List.getElem_mem hmE
      exact (hFE T hTE).symm

/-- Mapping the selection indexes of the canonical type labels over a
row read recovers the per-type aggregates, given the single-position
reading fact. -/
theorem forall2_read (t5 : Table) (g : Nat → Cell) (F : String → Cell)
    (hcell : ∀ (T : String) (j : Nat), T ∈ MBTI_TYPES → t5.colIdx T = some j → g j = F T) :
    ∀ (ts : List String) (js : List Nat),
      List.Forall₂ (fun c j => (t5.colIdx c).elim (Except.error PipelineError.keyError)
        Except.ok = Except.ok j) ts js →
      (∀ T ∈ ts, T ∈ MBTI_TYPES) → js.map g = ts.map F := by
  intro ts js hF2
  induction hF2 with
  | nil => intro _; rfl
  | cons hab htl ih =>
    rename_i c j ts2 js2
    intro hmem
    rw [List.map_cons, List.map_cons,
      hcell c j (hmem c (List.mem_cons_self c ts2)) (option_elim_ok hab),
      ih (fun x hx => hmem x (List.mem_cons_of_mem c hx))]

set_option maxHeartbeats 2000000 in
/-- The pivot / synthesize-missing / reorder tail of the long branch,
fully characterized over its three-column input: when the final
selection succeeds, the result has one row per distinct present key in
ascending order and, under each of the 16 canonical type columns, the
arithmetic mean of that (key, type) value group — NaN for an empty
group. The hypotheses pin the column labels apart (the embedding is
exact only when the country header is none of the reserved names). -/
theorem pivot_chain_eq (cc : String) (rows : List (List Cell))
    (ky : List Cell → Cell) (tn : List Cell → String) (vl : List Cell → Cell) (u : Table)
    (hccM : cc ∉ MBTI_TYPES) (hcT : cc ≠ "Type") (hcV : cc ≠ "Value")
    (hsel : (addMissingTypes (pivotMean
        ⟨[cc, "Type", "Value"], rows.map (fun r => [ky r, Cell.str (tn r), vl r])⟩ cc)).select
        (cc :: MBTI_TYPES) = .ok u) :
    u = ⟨cc :: MBTI_TYPES,
      (List.insertionSort cellLeP
          (((rows.filter (fun r => decide (ky r ≠ Cell.na ∧ vl r ≠ Cell.na))).map ky).dedup)).map
        (fun k => k :: MBTI_TYPES.map (fun T =>
          match (rows.filter (fun r => decide (ky r ≠ Cell.na ∧ vl r ≠ Cell.na))).filterMap
              (fun r => if ky r = k ∧ tn r = T then cellNumVal? (vl r) else none) with
          | [] => Cell.na
          | vs => Cell.num (ratDiv (ratListSum vs) (vs.length : Rat))))⟩ := by
  have hK : ∀ r : List Cell, Table.cellAt
      ⟨[cc, "Type", "Value"], rows.map (fun r => [ky r, Cell.str (tn r), vl r])⟩ cc r =
      r.getD 0 Cell.na := by
    intro r
    unfold Table.cellAt Table.colIdx
    dsimp only
    rw [List.findIdx?_cons, if_pos (show decide (cc = cc) = true from decide_eq_true rfl)]
  have hT : ∀ r : List Cell, Table.cellAt
      ⟨[cc, "Type", "Value"], rows.map (fun r => [ky r, Cell.str (tn r), vl r])⟩ "Type" r =
      r.getD 1 Cell.na := by
    intro r
    unfold Table.cellAt Table.colIdx
    dsimp only
    rw [List.findIdx?_cons, if_neg (by simp only [decide_eq_true_eq]; exact hcT),
      List.findIdx?_cons, if_pos (show decide ("Type" = "Type") = true from decide_eq_true rfl)]
  have hV : ∀ r : List Cell, Table.cellAt
      ⟨[cc, "Type", "Value"], rows.map (fun r => [ky r, Cell.str (tn r), vl r])⟩ "Value" r =
      r.getD 2 Cell.na := by
    intro r
    unfold Table.cellAt Table.colIdx
    dsimp only
    rw [List.findIdx?_cons, if_neg (by simp only [decide_eq_true_eq]; exact hcV),
      List.findIdx?_cons, if_neg (by decide),
      List.findIdx?_cons, if_pos (show decide ("Value" = "Value") = true from decide_eq_true rfl)]
  have hgood : (rows.map (fun r => [ky r, Cell.str (tn r), vl r])).filter
      (fun r => decide (r.getD 0 Cell.na ≠ Cell.na ∧ r.getD 1 Cell.na ≠ Cell.na ∧
        r.getD 2 Cell.na ≠ Cell.na)) =
      (rows.filter (fun r => decide (ky r ≠ Cell.na ∧ vl r ≠ Cell.na))).map
        (fun r => [ky r, Cell.str (tn r), vl r]) := by
    rw [List.filter_map]
    refine congrArg _ ?_
    refine List.filter_congr ?_
    intro r _
    show decide (ky r ≠ Cell.na ∧ Cell.str (tn r) ≠ Cell.na ∧ vl r ≠ Cell.na) =
      decide (ky r ≠ Cell.na ∧ vl r ≠ Cell.na)
    refine decide_eq_decide.2 ?_
    constructor
    · rintro ⟨h1, _, h3⟩
      exact ⟨h1, h3⟩
    · rintro ⟨h1, h3⟩
      exact ⟨h1, fun hh => Cell.noConfusion hh, h3⟩
  have hkeys : ((rows.filter (fun r => decide (ky r ≠ Cell.na ∧ vl r ≠ Cell.na))).map
      (fun r => [ky r, Cell.str (tn r), vl r])).map (fun r => r.getD 0 Cell.na) =
      (rows.filter (fun r => decide (ky r ≠ Cell.na ∧ vl r ≠ Cell.na))).map ky := by
    rw [List.map_map]
    exact List.map_congr_left (fun r _ => rfl)
  have htys : ((rows.filter (fun r => decide (ky r ≠ Cell.na ∧ vl r ≠ Cell.na))).map
      (fun r => [ky r, Cell.str (tn r), vl r])).filterMap
        (fun r => cellStrVal? (r.getD 1 Cell.na)) =
      (rows.filter (fun r => decide (ky r ≠ Cell.na ∧ vl r ≠ Cell.na))).map tn := by
    rw [List.filterMap_map]
    exact congrFun (List.filterMap_eq_map tn) _
  have hcf : ∀ (k : Cell) (ty : String),
      ((rows.filter (fun r => decide (ky r ≠ Cell.na ∧ vl r ≠ Cell.na))).map
        (fun r => [ky r, Cell.str (tn r), vl r])).filterMap
          (fun r => if r.getD 0 Cell.na = k ∧ r.getD 1 Cell.na = Cell.str ty
            then cellNumVal? (r.getD 2 Cell.na) else none) =
      (rows.filter (fun r => decide (ky r ≠ Cell.na ∧ vl r ≠ Cell.na))).filterMap
        (fun r => if ky r = k ∧ tn r = ty then cellNumVal? (vl r) else none) := by
    intro k ty
    rw [List.filterMap_map]
    refine List.filterMap_congr ?_
    intro r _
    show (if ky r = k ∧ Cell.str (tn r) = Cell.str ty then cellNumVal? (vl r) else none) =
      (if ky r = k ∧ tn r = ty then cellNumVal? (vl r) else none)
    refine if_congr ?_ rfl rfl
    constructor
    · rintro ⟨h1, h2⟩
      exact ⟨h1, Cell.str.inj h2⟩
    · rintro ⟨h1, h2⟩
      exact ⟨h1, by rw [h2]⟩
  have hpiv : pivotMean
      ⟨[cc, "Type", "Value"], rows.map (fun r => [ky r, Cell.str (tn r), vl r])⟩ cc =
      ⟨cc :: List.insertionSort strLeP
          (((rows.filter (fun r => decide (ky r ≠ Cell.na ∧ vl r ≠ Cell.na))).map tn).dedup),
        (List.insertionSort cellLeP
            (((rows.filter (fun r => decide (ky r ≠ Cell.na ∧ vl r ≠ Cell.na))).map ky).dedup)).map
          (fun k => k :: (List.insertionSort strLeP
              (((rows.filter (fun r => decide (ky r ≠ Cell.na ∧ vl r ≠ Cell.na))).map
                tn).dedup)).map
            (fun ty =>
              match (rows.filter (fun r => decide (ky r ≠ Cell.na ∧ vl r ≠ Cell.na))).filterMap
                  (fun r => if ky r = k ∧ tn r = ty then cellNumVal? (vl r) else none) with
              | [] => Cell.na
              | vs => Cell.num (ratDiv (ratListSum vs) (vs.length : Rat))))⟩ := by
    unfold pivotMean
    dsimp only
    simp only [hK, hT, hV]
    rw [hgood, hkeys, htys]
    simp only [hcf]
  rw [hpiv] at hsel
  unfold addMissingTypes at hsel
  rcases select_ok_parts hsel with ⟨idxs2, hidxs2, hu⟩
  have hstruct := addMissing_struct MBTI_TYPES (by decide)
  rcases mapE_cons_ok hidxs2 with ⟨i0, restIdx, hidsplit, hfcc, hfrest⟩
  subst hidsplit
  have hicc0 := option_elim_ok hfcc
  have hi0 : i0 = 0 := by
    unfold Table.colIdx at hicc0
    rw [(hstruct _).1] at hicc0
    rw [show ((⟨cc :: List.insertionSort strLeP
        (((rows.filter (fun r => decide (ky r ≠ Cell.na ∧ vl r ≠ Cell.na))).map tn).dedup),
        _⟩ : Table)).cols = cc :: List.insertionSort strLeP
        (((rows.filter (fun r => decide (ky r ≠ Cell.na ∧ vl r ≠ Cell.na))).map tn).dedup)
      from rfl] at hicc0
    rw [List.cons_append, List.findIdx?_cons,
      if_pos (show decide (cc = cc) = true from decide_eq_true rfl)] at hicc0
    exact (Option.some_injective _ hicc0).symm
  subst hi0
  have hFtail := mapE_ok_forall₂ hfrest
  rw [hu]
  refine congrArg (Table.mk (cc :: MBTI_TYPES)) ?_
  rw [(hstruct _).2]
  rw [List.map_map]
  dsimp only
  rw [List.map_map]
  refine List.map_congr_left ?_
  intro k hk
  simp only [Function.comp_apply]
  rw [List.map_cons]
  refine congrArg₂ List.cons ?_ ?_
  · rw [List.cons_append, List.getD_cons_zero]
  · refine forall2_read _ _ _ ?_ MBTI_TYPES restIdx hFtail (fun T hT => hT)
    intro T j hTM hidx
    unfold Table.colIdx at hidx
    rw [(hstruct _).1] at hidx
    refine onerow_read cc _ _ _ k hccM ?_ T j hTM hidx
    intro x hxE
    have hx2 := List.mem_filter.1 hxE
    have hxnot : x ∉ List.insertionSort strLeP
        (((rows.filter (fun r => decide (ky r ≠ Cell.na ∧ vl r ≠ Cell.na))).map tn).dedup) :=
      fun hcmem => (of_decide_eq_true hx2.2) (List.mem_cons_of_mem _ hcmem)
    show (match (rows.filter (fun r => decide (ky r ≠ Cell.na ∧ vl r ≠ Cell.na))).filterMap
        (fun r => if ky r = k ∧ tn r = x then cellNumVal? (vl r) else none) with
      | [] => Cell.na
      | vs => Cell.num (ratDiv (ratListSum vs) (vs.length : Rat))) = Cell.na
    rcases hGf : (rows.filter (fun r => decide (ky r ≠ Cell.na ∧ vl r ≠ Cell.na))).filterMap
        (fun r => if ky r = k ∧ tn r = x then cellNumVal? (vl r) else none) with _ | ⟨v, vs⟩
    · rfl
    · exfalso
      have hv : v ∈ (rows.filter (fun r => decide (ky r ≠ Cell.na ∧ vl r ≠ Cell.na))).filterMap
          (fun r => if ky r = k ∧ tn r = x then cellNumVal? (vl r) else none) := by
        rw [hGf]
        exact List.mem_cons_self _ _
      rcases List.mem_filterMap.1 hv with ⟨r, hrG, hif⟩
      by_cases hcond : ky r = k ∧ tn r = x
      · refine hxnot ((List.perm_insertionSort strLeP _).mem_iff.2
          (List.mem_dedup.2 ?_))
        rw [← hcond.2]
        exact List.mem_map_of_mem tn hrG
      · rw [if_neg hcond] at hif
        exact Option.noConfusion hif

set_option maxHeartbeats 2000000 in
/-- Claim C8: for every long-shape input — a detected country column
(whose header is none of the reserved names Type / Value / a type code,
where the embedding is exact) plus resolvable type and value aliases —
the reconciler prints, upper-cases and trims the type values, discards
the rows whose reconciled type is not one of the 16 canonical codes,
and pivots to exactly one row per distinct contributing country in
ascending key order, with one column per canonical type, each cell the
arithmetic mean of the coerced values of that (country, type) group:
duplicate pairs are averaged, and a group with no surviving rows
(missing key, unparseable value, or absent type) is NaN. -/
theorem C8_long_branch_aggregates_mean (t w : Table) (cc tc vc : String)
    (hnw : (mbtiColsPresent t.stripCols.cols).length < 4)
    (htc : typeColOf t.stripCols.cols = some tc)
    (hvc : valueColOf t.stripCols.cols = some vc)
    (hcT : cc ≠ "Type") (hcV : cc ≠ "Value") (hccM : cc ∉ MBTI_TYPES)
    (h : to_wide_by_country t = .ok (w, cc)) :
    w = ⟨cc :: MBTI_TYPES,
      (longCountries t.stripCols cc tc vc).map (fun k =>
        k :: MBTI_TYPES.map (fun T => longMeanCell t.stripCols cc tc vc k T))⟩ := by
  simp only [to_wide_by_country] at h
  rcases hdet : auto_detect_country_col t.stripCols with _ | cc2 <;> rw [hdet] at h
  · exact Except.noConfusion h
  dsimp only at h
  by_cases hcc2 : cc2 = ""
  · rw [if_pos hcc2] at h
    exact Except.noConfusion h
  rw [if_neg hcc2, if_neg (by omega)] at h
  rw [htc, hvc] at h
  dsimp only at h
  unfold longBranch at h
  split at h
  · exact Except.noConfusion h
  · rename_i sel hsel1
    dsimp only at h
    split at h
    · exact Except.noConfusion h
    · rename_i w2 hsel2
      cases h
      rcases select_ok_parts hsel1 with ⟨idxs, hidxs, hselStruct⟩
      rcases mapE_cons_ok hidxs with ⟨i1, r1, hid1, hf1, hrest1⟩
      rcases mapE_cons_ok hrest1 with ⟨i2, r2, hid2, hf2, hrest2⟩
      rcases mapE_cons_ok hrest2 with ⟨i3, r3, hid3, hf3, hrest3⟩
      unfold mapE at hrest3
      cases hrest3
      subst hid3
      subst hid2
      subst hid1
      have hicc : t.stripCols.colIdx cc = some i1 := option_elim_ok hf1
      have hitc : t.stripCols.colIdx tc = some i2 := option_elim_ok hf2
      have hivc : t.stripCols.colIdx vc = some i3 := option_elim_ok hf3
      have hrows_sel : sel.rows = t.stripCols.rows.map (fun r =>
          [r.getD i1 Cell.na, r.getD i2 Cell.na, r.getD i3 Cell.na]) := by
        rw [hselStruct]
        rfl
      have hT1 : Table.mapColByName ⟨[cc, "Type", "Value"], sel.rows⟩ "Type"
          (fun c => Cell.str (pyStrip (pyUpper (cellToStrPy c)))) =
          ⟨[cc, "Type", "Value"], t.stripCols.rows.map (fun r =>
            [r.getD i1 Cell.na,
              Cell.str (pyStrip (pyUpper (cellToStrPy (r.getD i2 Cell.na)))),
              r.getD i3 Cell.na])⟩ := by
        unfold Table.mapColByName Table.colIdx
        dsimp only
        rw [List.findIdx?_cons, if_neg (by simp only [decide_eq_true_eq]; exact hcT),
          List.findIdx?_cons,
          if_pos (show decide ("Type" = "Type") = true from decide_eq_true rfl)]
        dsimp only
        refine congrArg (Table.mk [cc, "Type", "Value"]) ?_
        rw [hrows_sel, List.map_map]
        exact List.map_congr_left (fun r _ => rfl)
      rw [hT1] at hsel2
      have hT2 : Table.filterRows
          ⟨[cc, "Type", "Value"], t.stripCols.rows.map (fun r =>
            [r.getD i1 Cell.na,
              Cell.str (pyStrip (pyUpper (cellToStrPy (r.getD i2 Cell.na)))),
              r.getD i3 Cell.na])⟩
          (fun r => match Table.cellAt
              ⟨[cc, "Type", "Value"], t.stripCols.rows.map (fun r =>
                [r.getD i1 Cell.na,
                  Cell.str (pyStrip (pyUpper (cellToStrPy (r.getD i2 Cell.na)))),
                  r.getD i3 Cell.na])⟩ "Type" r with
            | Cell.str s => decide (s ∈ MBTI_TYPES)
            | _ => false) =
          ⟨[cc, "Type", "Value"], (t.stripCols.rows.filter (fun r =>
              decide (pyStrip (pyUpper (cellToStrPy (r.getD i2 Cell.na))) ∈ MBTI_TYPES))).map
            (fun r => [r.getD i1 Cell.na,
              Cell.str (pyStrip (pyUpper (cellToStrPy (r.getD i2 Cell.na)))),
              r.getD i3 Cell.na])⟩ := by
        have hat : ∀ r : List Cell, Table.cellAt
            ⟨[cc, "Type", "Value"], t.stripCols.rows.map (fun r =>
              [r.getD i1 Cell.na,
                Cell.str (pyStrip (pyUpper (cellToStrPy (r.getD i2 Cell.na)))),
                r.getD i3 Cell.na])⟩ "Type" r = r.getD 1 Cell.na := by
          intro r
          unfold Table.cellAt Table.colIdx
          dsimp only
          rw [List.findIdx?_cons, if_neg (by simp only [decide_eq_true_eq]; exact hcT),
            List.findIdx?_cons,
            if_pos (show decide ("Type" = "Type") = true from decide_eq_true rfl)]
        unfold Table.filterRows
        simp only [hat]
        refine congrArg (Table.mk [cc, "Type", "Value"]) ?_
        rw [List.filter_map]
        refine congrArg _ ?_
        exact List.filter_congr (fun r _ => rfl)
      rw [hT2] at hsel2
      have hT3 : Table.mapColByName
          ⟨[cc, "Type", "Value"], (t.stripCols.rows.filter (fun r =>
              decide (pyStrip (pyUpper (cellToStrPy (r.getD i2 Cell.na))) ∈ MBTI_TYPES))).map
            (fun r => [r.getD i1 Cell.na,
              Cell.str (pyStrip (pyUpper (cellToStrPy (r.getD i2 Cell.na)))),
              r.getD i3 Cell.na])⟩ "Value" toNumericCell =
          ⟨[cc, "Type", "Value"], (t.stripCols.rows.filter (fun r =>
              decide (pyStrip (pyUpper (cellToStrPy (r.getD i2 Cell.na))) ∈ MBTI_TYPES))).map
            (fun r => [r.getD i1 Cell.na,
              Cell.str (pyStrip (pyUpper (cellToStrPy (r.getD i2 Cell.na)))),
              toNumericCell (r.getD i3 Cell.na)])⟩ := by
        unfold Table.mapColByName Table.colIdx
        dsimp only
        rw [List.findIdx?_cons, if_neg (by simp only [decide_eq_true_eq]; exact hcV),
          List.findIdx?_cons, if_neg (by decide),
          List.findIdx?_cons,
          if_pos (show decide ("Value" = "Value") = true from decide_eq_true rfl)]
        dsimp only
        refine congrArg (Table.mk [cc, "Type", "Value"]) ?_
        rw [List.map_map]
        exact List.map_congr_left (fun r _ => rfl)
      rw [hT3] at hsel2
      have hmain := pivot_chain_eq cc
        (t.stripCols.rows.filter (fun r =>
          decide (pyStrip (pyUpper (cellToStrPy (r.getD i2 Cell.na))) ∈ MBTI_TYPES)))
        (fun r => r.getD i1 Cell.na)
        (fun r => pyStrip (pyUpper (cellToStrPy (r.getD i2 Cell.na))))
        (fun r => toNumericCell (r.getD i3 Cell.na)) w hccM hcT hcV hsel2
      refine hmain.trans ?_
      refine congrArg (Table.mk (cc :: MBTI_TYPES)) ?_
      have hCc : ∀ r : List Cell, t.stripCols.cellAt cc r = r.getD i1 Cell.na := by
        intro r
        unfold Table.cellAt
        rw [hicc]
      have hCt : ∀ r : List Cell, t.stripCols.cellAt tc r = r.getD i2 Cell.na := by
        intro r
        unfold Table.cellAt
        rw [hitc]
      have hCv : ∀ r : List Cell, t.stripCols.cellAt vc r = r.getD i3 Cell.na := by
        intro r
        unfold Table.cellAt
        rw [hivc]
      unfold longCountries longMeanCell longGood longTypeOf
      simp only [hCc, hCt, hCv]

/-- Claim C8 witness: the concrete long-shape run — aliased headers
Country / MBTI_Type / Percent, type values needing upper-casing and
trimming, the non-canonical type ABCD discarded, the unparseable value
"oops" dropped, countries Y, X sorted to X, Y — reconciles to
C8_expected, which the general theorem then equates with the
mean-by-group table read off the input; in particular the duplicate
(X, INFP) rows 10 and 20 average to the single cell 15. -/
theorem C8_long_branch_aggregates_mean_witness :
    to_wide_by_country C8_input = .ok (C8_expected, "Country") ∧
    C8_expected = ⟨"Country" :: MBTI_TYPES,
      (longCountries C8_input.stripCols "Country" "MBTI_Type" "Percent").map (fun k =>
        k :: MBTI_TYPES.map (fun T =>
          longMeanCell C8_input.stripCols "Country" "MBTI_Type" "Percent" k T))⟩ :=
  ⟨by decide,
   C8_long_branch_aggregates_mean C8_input C8_expected "Country" "MBTI_Type" "Percent"
     (by decide) (by decide) (by decide) (by decide) (by decide) (by decide) (by decide)⟩
